import Mathlib

/-!
# Checked C wrapper macros (`core/include/checkedc.h`)

The header consists of an include guard and seven conditional blocks, each of
which defines one macro in one of two ways depending on whether the
preprocessor symbol `USE_CHECKEDC` is defined.  The development below embeds

* the header itself as a list of preprocessing directives (`header`),
* the processing of conditional directives over a table of macro definitions
  (`runDirectives`, `includeHeader`), and
* macro replacement on token sequences (`expand`, `preprocess`), following
  C11 6.10.3: argument collection, argument pre-expansion, substitution,
  rescanning together with the rest of the source, and the rule that a macro
  name is not replaced again inside its own replacement.

Stringification (`#`) and token pasting (`##`) are not modelled: no macro of
the header uses them.
-/

namespace CheckedC

/-! ## Macro definitions and the header -/

/-- A macro definition: `params = none` for an object-like macro,
`params = some ps` for a function-like macro; `body` is the replacement list. -/
structure MacroDef where
  params : Option (List String)
  body : List String
deriving DecidableEq, Repr

/-- The macro table: the most recent definition of a name comes first. -/
abbrev Table := List (String × MacroDef)

/-- Most recent definition of `name`, if any. -/
def find? (name : String) : Table → Option MacroDef
  | [] => none
  | (k, d) :: rest => if name = k then some d else find? name rest

/-- The test of `#ifdef name`. -/
def isDefined (name : String) (tbl : Table) : Bool :=
  (find? name tbl).isSome

/-- The preprocessing directives occurring in the header. -/
inductive Directive where
  | ifDefined (sym : String)
  | ifNotDefined (sym : String)
  | orElse
  | endif
  | define (name : String) (params : Option (List String)) (body : List String)
deriving DecidableEq, Repr

/-- One open conditional group: whether the enclosing group is active, the
value of the group's condition, and whether `#else` has been passed. -/
structure Frame where
  parent : Bool
  cond : Bool
  inElse : Bool
deriving DecidableEq, Repr

/-- The lines of the group are processed iff the enclosing group is active and
the branch taken is the one selected by the condition. -/
def Frame.active (f : Frame) : Bool :=
  f.parent && (f.cond != f.inElse)

/-- State of directive processing. -/
structure PPState where
  stack : List Frame
  table : Table
deriving DecidableEq, Repr

/-- Whether the current line is in an active group. -/
def PPState.active (st : PPState) : Bool :=
  match st.stack with
  | [] => true
  | f :: _ => f.active

/-- Process one directive. -/
def stepDirective (st : PPState) : Directive → PPState
  | .ifDefined sym =>
      { st with stack := ⟨st.active, isDefined sym st.table, false⟩ :: st.stack }
  | .ifNotDefined sym =>
      { st with stack := ⟨st.active, !isDefined sym st.table, false⟩ :: st.stack }
  | .orElse =>
      match st.stack with
      | [] => st
      | f :: fs => { st with stack := { f with inElse := true } :: fs }
  | .endif => { st with stack := st.stack.tail }
  | .define name params body =>
      if st.active then { st with table := (name, ⟨params, body⟩) :: st.table } else st

/-- Process a list of directives from left to right. -/
def runDirectives (ds : List Directive) (st : PPState) : PPState :=
  ds.foldl stepDirective st

/-- Lines 35-39: `array_ptr`. -/
def arrayPtrBlock : List Directive :=
  [ .ifDefined "USE_CHECKEDC",
    .define "array_ptr" (some ["n", "t", "e"]) ["_Array_ptr", "<", "t", ">", "n", ":", "e"],
    .orElse,
    .define "array_ptr" (some ["n", "t", "e"]) ["ptr", "(", "n", ",", "t", ")"],
    .endif ]

/-- Lines 51-55: `checked`. -/
def checkedBlock : List Directive :=
  [ .ifDefined "USE_CHECKEDC",
    .define "checked" none ["_Checked"],
    .orElse,
    .define "checked" none [],
    .endif ]

/-- Lines 67-71: `dynamic_check` (an object-like macro in both branches). -/
def dynamicCheckBlock : List Directive :=
  [ .ifDefined "USE_CHECKEDC",
    .define "dynamic_check" none ["_Dynamic_Check"],
    .orElse,
    .define "dynamic_check" none [],
    .endif ]

/-- Lines 85-89: `nt_array_ptr`. -/
def ntArrayPtrBlock : List Directive :=
  [ .ifDefined "USE_CHECKEDC",
    .define "nt_array_ptr" (some ["n", "t", "e"]) ["_Nt_array_ptr", "<", "t", ">", "n", ":", "e"],
    .orElse,
    .define "nt_array_ptr" (some ["n", "t", "e"]) ["ptr", "(", "n", ",", "t", ")"],
    .endif ]

/-- Lines 101-105: `nt_checked`. -/
def ntCheckedBlock : List Directive :=
  [ .ifDefined "USE_CHECKEDC",
    .define "nt_checked" none ["_Nt_checked"],
    .orElse,
    .define "nt_checked" none [],
    .endif ]

/-- Lines 115-119: `ptr`. -/
def ptrBlock : List Directive :=
  [ .ifDefined "USE_CHECKEDC",
    .define "ptr" (some ["n", "t"]) ["_Ptr", "<", "t", ">", "n"],
    .orElse,
    .define "ptr" (some ["n", "t"]) ["t", "*", "n"],
    .endif ]

/-- Lines 134-138: `unchecked`. -/
def uncheckedBlock : List Directive :=
  [ .ifDefined "USE_CHECKEDC",
    .define "unchecked" none ["_Unchecked"],
    .orElse,
    .define "unchecked" none [],
    .endif ]

/-- Lines 35-138: the seven conditional blocks, in source order. -/
def macroBlocks : List Directive :=
  arrayPtrBlock ++ checkedBlock ++ dynamicCheckBlock ++ ntArrayPtrBlock ++
    ntCheckedBlock ++ ptrBlock ++ uncheckedBlock

/-- The whole header: include guard (lines 20-21 and 140) around the blocks. -/
def header : List Directive :=
  [.ifNotDefined "CHECKEDC_H", .define "CHECKEDC_H" none []] ++ macroBlocks ++ [.endif]

/-- The macro table after the seven blocks have been processed, starting from
the build configuration `cfg` (the macros defined before line 35). -/
def defineMacros (cfg : Table) : Table :=
  (runDirectives macroBlocks ⟨[], cfg⟩).table

/-- The macro table after `#include "checkedc.h"`, starting from `cfg`. -/
def includeHeader (cfg : Table) : Table :=
  (runDirectives header ⟨[], cfg⟩).table

/-- The seven macros of the header. -/
def headerMacros : List String :=
  ["ptr", "array_ptr", "nt_array_ptr", "checked", "unchecked", "nt_checked", "dynamic_check"]

/-- The definitions in the `#ifdef USE_CHECKEDC` branches (lines 36, 52, 68,
86, 102, 116 and 135), most recent first. -/
def checkedDefs : Table :=
  [ ("unchecked", ⟨none, ["_Unchecked"]⟩),
    ("ptr", ⟨some ["n", "t"], ["_Ptr", "<", "t", ">", "n"]⟩),
    ("nt_checked", ⟨none, ["_Nt_checked"]⟩),
    ("nt_array_ptr", ⟨some ["n", "t", "e"], ["_Nt_array_ptr", "<", "t", ">", "n", ":", "e"]⟩),
    ("dynamic_check", ⟨none, ["_Dynamic_Check"]⟩),
    ("checked", ⟨none, ["_Checked"]⟩),
    ("array_ptr", ⟨some ["n", "t", "e"], ["_Array_ptr", "<", "t", ">", "n", ":", "e"]⟩) ]

/-- The definitions in the `#else` branches (lines 38, 54, 70, 88, 104, 118
and 137), most recent first. -/
def uncheckedDefs : Table :=
  [ ("unchecked", ⟨none, []⟩),
    ("ptr", ⟨some ["n", "t"], ["t", "*", "n"]⟩),
    ("nt_checked", ⟨none, []⟩),
    ("nt_array_ptr", ⟨some ["n", "t", "e"], ["ptr", "(", "n", ",", "t", ")"]⟩),
    ("dynamic_check", ⟨none, []⟩),
    ("checked", ⟨none, []⟩),
    ("array_ptr", ⟨some ["n", "t", "e"], ["ptr", "(", "n", ",", "t", ")"]⟩) ]

/-- Build configuration without the switch: nothing predefined. -/
def uncheckedCfg : Table := []

/-- Build configuration with the switch, as given by `-DUSE_CHECKEDC`. -/
def checkedCfg : Table := [("USE_CHECKEDC", ⟨none, ["1"]⟩)]

/-- Build configuration that defines the symbol named in the file
documentation (`-DENABLE_CHECKEDC`) but not `USE_CHECKEDC`. -/
def enableCfg : Table := [("ENABLE_CHECKEDC", ⟨none, ["1"]⟩)]

/-- Macro table of a translation unit that includes the header in unchecked mode. -/
def uncheckedTable : Table := includeHeader uncheckedCfg

/-- Macro table of a translation unit that includes the header in checked mode. -/
def checkedTable : Table := includeHeader checkedCfg

/-! ## Macro replacement on token sequences -/

/-- A preprocessing token together with its hide set: the names of the macros
whose replacement produced it and which are therefore no longer replaced when
they occur as this token (C11 6.10.3.4p2). -/
structure Tok where
  text : String
  hide : List String
deriving DecidableEq, Repr

/-- A token as read from the source file. -/
def Tok.fresh (s : String) : Tok := ⟨s, []⟩

/-- Add the names `hs` to the hide set of every token. -/
def addHide (hs : List String) (ts : List Tok) : List Tok :=
  ts.map fun t => ⟨t.text, hs ++ t.hide⟩

/-- Errors of macro replacement. -/
inductive PPError where
  | outOfFuel
  | unterminatedCall
  | argCount
deriving DecidableEq, Repr

/-- Collect the arguments of a function-like macro invocation.  The input
starts right after the opening parenthesis; `depth` counts the parentheses
opened inside the current argument and `cur` holds the tokens of the current
argument read so far.  Commas separate arguments only at depth 0.  Returns the
arguments, the closing parenthesis and the tokens after it. -/
def collectArgs : Nat → List Tok → List Tok → Option (List (List Tok) × Tok × List Tok)
  | _, _, [] => none
  | depth, cur, t :: ts =>
      if t.text = ")" then
        match depth with
        | 0 => some ([cur], t, ts)
        | d + 1 => collectArgs d (cur ++ [t]) ts
      else if t.text = "(" then collectArgs (depth + 1) (cur ++ [t]) ts
      else if t.text = "," ∧ depth = 0 then
        match collectArgs 0 [] ts with
        | none => none
        | some (args, close, rest) => some (cur :: args, close, rest)
      else collectArgs depth (cur ++ [t]) ts

/-- Pre-expand the arguments: an argument is completely macro replaced (by
`rec`) before substitution iff its parameter occurs in the replacement list;
an argument whose parameter does not occur is never looked at. -/
def expandArgs (rec : List Tok → Except PPError (List Tok)) (body : List String) :
    List String → List (List Tok) → Except PPError (List (String × List Tok))
  | p :: ps, a :: as =>
      if p ∈ body then
        match rec a with
        | .error e => .error e
        | .ok a1 =>
            match expandArgs rec body ps as with
            | .error e => .error e
            | .ok bs => .ok ((p, a1) :: bs)
      else
        match expandArgs rec body ps as with
        | .error e => .error e
        | .ok bs => .ok ((p, a) :: bs)
  | _, _ => .ok []

/-- The argument bound to parameter `p`, if `p` is a parameter. -/
def binding? (p : String) : List (String × List Tok) → Option (List Tok)
  | [] => none
  | (k, a) :: rest => if p = k then some a else binding? p rest

/-- Substitute the (pre-expanded) arguments for the parameters in a
replacement list; the other tokens of the replacement list are copied. -/
def substitute (bs : List (String × List Tok)) : List String → List Tok
  | [] => []
  | b :: body =>
      (match binding? b bs with
        | some a => a
        | none => [Tok.fresh b]) ++ substitute bs body

/-- Whether the number of arguments fits the parameter list (`f()` passes no
argument to a macro without parameters). -/
def arityOk (params : List String) (args : List (List Tok)) : Bool :=
  args.length == params.length || (params.isEmpty && args == [[]])

/-- Macro replacement of a token sequence.  Each step handles the first token:

* a token that is not a macro name, or whose hide set contains its own name,
  is output;
* an object-like macro name is replaced by its replacement list, which is then
  rescanned together with the rest of the tokens;
* a function-like macro name is an invocation only if the *next token* is `(`
  (C11 6.10.3p10); then the arguments are collected, the used ones are
  pre-expanded, substituted, and the result is rescanned together with the
  rest of the tokens; otherwise the name is output unchanged.

The tokens produced by a replacement get the replaced name added to their hide
set.  `fuel` bounds the number of steps. -/
def expand (tbl : Table) : Nat → List Tok → Except PPError (List Tok)
  | 0, _ => .error .outOfFuel
  | _ + 1, [] => .ok []
  | fuel + 1, t :: rest =>
      if t.text ∈ t.hide then (expand tbl fuel rest).map (t :: ·)
      else
        match find? t.text tbl with
        | none => (expand tbl fuel rest).map (t :: ·)
        | some ⟨none, body⟩ =>
            expand tbl fuel (addHide (t.text :: t.hide) (body.map Tok.fresh) ++ rest)
        | some ⟨some params, body⟩ =>
            match rest with
            | [] => .ok [t]
            | p :: rest1 =>
                if p.text = "(" then
                  match collectArgs 0 [] rest1 with
                  | none => .error .unterminatedCall
                  | some (args, close, rest2) =>
                      if arityOk params args then
                        match expandArgs (expand tbl fuel) body params args with
                        | .error e => .error e
                        | .ok bs =>
                            expand tbl fuel
                              (addHide (t.text :: t.hide.filter (· ∈ close.hide))
                                (substitute bs body) ++ rest2)
                      else .error .argCount
                else (expand tbl fuel rest).map (t :: ·)

/-- Preprocess a source token sequence and return the texts of the resulting
tokens. -/
def preprocess (tbl : Table) (fuel : Nat) (src : List String) : Except PPError (List String) :=
  (expand tbl fuel (src.map Tok.fresh)).map (List.map Tok.text)

/-! ## Source tokens of invocations, well-formed arguments -/

/-- Scan the texts of an argument starting at parenthesis depth `d`: the depth
reached at the end, or `none` if the tokens close a parenthesis that they did
not open or contain a comma outside parentheses. -/
def scanArg : Nat → List String → Option Nat
  | d, [] => some d
  | d, s :: ss =>
      if s = ")" then
        match d with
        | 0 => none
        | d1 + 1 => scanArg d1 ss
      else if s = "(" then scanArg (d + 1) ss
      else if s = "," ∧ d = 0 then none
      else scanArg d ss

/-- A token sequence that can be passed as one macro argument: parentheses
are balanced and every comma is inside parentheses. -/
def isArg (a : List String) : Bool :=
  scanArg 0 a == some 0

/-- C identifier characters. -/
def isIdentChar (c : Char) : Bool :=
  c.isAlphanum || c == '_'

/-- A C identifier: a nonempty sequence of letters, digits and underscores not
starting with a digit. -/
def isIdentifier (s : String) : Bool :=
  match s.data with
  | [] => false
  | c :: cs => (c.isAlpha || c == '_') && cs.all isIdentChar

/-- The arguments of an invocation, separated by commas. -/
def joinArgs : List (List String) → List String
  | [] => []
  | [a] => a
  | a :: as => a ++ "," :: joinArgs as

/-- The source tokens of the invocation `name(a1, ..., ak)`. -/
def invoke (name : String) (args : List (List String)) : List String :=
  name :: "(" :: joinArgs args ++ [")"]

/-- No token of `a` is the name of a macro defined in `tbl`. -/
def macroFree (tbl : Table) (a : List String) : Bool :=
  a.all fun s => !isDefined s tbl

/-- Whether `s` names a function-like macro of `tbl`. -/
def isFunctionLike (tbl : Table) (s : String) : Bool :=
  match find? s tbl with
  | some ⟨some _, _⟩ => true
  | _ => false

/-- The two macros that forward to `ptr` in unchecked mode. -/
def forwardsToPtr (name : String) : Bool :=
  name == "array_ptr" || name == "nt_array_ptr"

/-- The Checked C keyword that `array_ptr` / `nt_array_ptr` expand to. -/
def boundedKeyword (name : String) : String :=
  if name = "array_ptr" then "_Array_ptr" else "_Nt_array_ptr"

/-- The source with every occurrence of the three scope markers deleted. -/
def deleteMarkers (src : List String) : List String :=
  src.filter fun s => !(s == "checked" || s == "unchecked" || s == "nt_checked")

/-- Whether `s` is one of the three scope markers. -/
def isMarker (s : String) : Bool :=
  s == "checked" || s == "unchecked" || s == "nt_checked"

/-- Every occurrence of a function-like macro name of the header (in unchecked
mode: `ptr`, `array_ptr`, `nt_array_ptr`) in the source is directly followed
by `(`. -/
def invocationsOnly : List String → Bool
  | [] => true
  | s :: rest =>
      (!isFunctionLike uncheckedTable s || rest.head? == some "(") && invocationsOnly rest

/-- The tokens with the three scope markers deleted. -/
def stripMarkers (ts : List Tok) : List Tok :=
  ts.filter fun t => !isMarker t.text

/-- A token that names a function-like macro (unchecked mode) and may still be
replaced. -/
def isActive (t : Tok) : Bool :=
  isFunctionLike uncheckedTable t.text && !decide (t.text ∈ t.hide)

/-- Whether the first token is `(`. -/
def nextIsParen : List Tok → Bool
  | p :: _ => p.text == "("
  | [] => false

/-- Every token that may still be replaced as a function-like macro is directly
followed by `(`. -/
def callsOnly : List Tok → Bool
  | [] => true
  | t :: rest => (!isActive t || nextIsParen rest) && callsOnly rest

/-- Hide sets hold names of function-like macros only (object-like macros have
empty replacement lists in unchecked mode and so never mark a token). -/
def HideOk (ts : List Tok) : Prop :=
  ∀ t ∈ ts, ∀ h ∈ t.hide, isFunctionLike uncheckedTable h = true

/-- A token that macro replacement outputs unchanged whatever follows it. -/
def Inert (tbl : Table) (t : Tok) : Prop :=
  t.text ∈ t.hide ∨ find? t.text tbl = none

/-- What `collectArgs` returns: the arguments, one separator after each, and
the rest make up the input; the pieces inherit `callsOnly`. -/
def ArgsSpec (cur ts : List Tok) (args : List (List Tok)) (rest : List Tok) : Prop :=
  (args.map List.length).sum + args.length + rest.length = cur.length + ts.length ∧
    (∀ a ∈ args, ∀ x ∈ a, x ∈ cur ∨ x ∈ ts) ∧ (∀ x ∈ rest, x ∈ ts) ∧
    (callsOnly (cur ++ ts) = true → (∀ a ∈ args, callsOnly a = true) ∧ callsOnly rest = true)

/-- What is shown of a token sequence by induction on the fuel: deleting the
markers does not change the result, the result is not a lack of fuel, and an
output is no longer than the input and consists of inert tokens. -/
def Sim (f : Nat) (ts : List Tok) : Prop :=
  (∀ g, f ≤ g → expand uncheckedTable g (stripMarkers ts) = expand uncheckedTable f ts) ∧
    expand uncheckedTable f ts ≠ .error .outOfFuel ∧
    (∀ out, expand uncheckedTable f ts = .ok out →
      out.length ≤ ts.length ∧ HideOk out ∧ ∀ t ∈ out, Inert uncheckedTable t)

/-! ## Downstream meaning of the expansions

The header only emits tokens; what they mean is decided by the compiler.  Two
small fragments of that meaning are needed to state the properties of
`dynamic_check` and of the pointer declarations: the execution of a statement
whose expressions are integer constants, and the C grammar of declarators. -/

/-- Value of an integer constant expression, or the failure of a division. -/
inductive Value where
  | int (v : Int)
  | divisionByZero
deriving DecidableEq, Repr

/-- What executing a statement does. -/
inductive Outcome where
  | completes
  | aborts
  | divisionError
deriving DecidableEq, Repr

/-- Value of a decimal digit sequence. -/
def digitsValue : List Char → Nat → Option Nat
  | [], acc => some acc
  | c :: cs, acc => if c.isDigit then digitsValue cs (10 * acc + (c.toNat - 48)) else none

/-- Value of a decimal integer constant. -/
def literal? (s : String) : Option Nat :=
  match s.data with
  | [] => none
  | cs => digitsValue cs 0

/-- C integer division (truncating), failing on a zero divisor. -/
def divide : Value → Value → Value
  | .int a, .int b => if b = 0 then .divisionByZero else .int (Int.tdiv a b)
  | _, _ => .divisionByZero

/-- A primary expression: an integer constant, or a parenthesised expression
(evaluated by `rec`). -/
def evalPrimary (rec : List String → Option (Value × List String)) :
    List String → Option (Value × List String)
  | [] => none
  | s :: ts =>
      if s = "(" then
        match rec ts with
        | some (v, c :: rest) => if c = ")" then some (v, rest) else none
        | _ => none
      else
        match literal? s with
        | some n => some (.int n, ts)
        | none => none

/-- The operands following the first one: `/ primary / primary ...`,
evaluated from left to right. -/
def evalDivisions (rec : List String → Option (Value × List String)) :
    Nat → Value → List String → Option (Value × List String)
  | 0, _, _ => none
  | k + 1, acc, ts =>
      match ts with
      | s :: ts1 =>
          if s = "/" then
            match evalPrimary rec ts1 with
            | some (v, rest) => evalDivisions rec k (divide acc v) rest
            | none => none
          else some (acc, ts)
      | [] => some (acc, [])

/-- Evaluate a leading expression built from integer constants, parentheses
and `/`; returns its value and the remaining tokens.  `fuel` bounds the
nesting of parentheses. -/
def evalExpr : Nat → List String → Option (Value × List String)
  | 0, _ => none
  | fuel + 1, ts =>
      match evalPrimary (evalExpr fuel) ts with
      | some (v, rest) => evalDivisions (evalExpr fuel) (rest.length + 1) v rest
      | none => none

/-- Modelled from the spec: what the downstream compiler makes of one statement
of the expanded program (section 4.1: a dynamic check is "a mandatory runtime
check of `c`; a failing check raises a fatal runtime error (aborts
execution)").  `_Dynamic_Check ( c ) ;` aborts iff `c` is zero; an expression
statement `c ;` evaluates `c`; `;` does nothing.  `none` for statements
outside this fragment. -/
def runStatement (ts : List String) : Option Outcome :=
  match ts with
  | [";"] => some .completes
  | "_Dynamic_Check" :: rest =>
      match evalExpr rest.length rest with
      | some (.divisionByZero, [";"]) => some .divisionError
      | some (.int v, [";"]) => if v = 0 then some .aborts else some .completes
      | _ => none
  | _ =>
      match evalExpr ts.length ts with
      | some (.divisionByZero, [";"]) => some .divisionError
      | some (.int _, [";"]) => some .completes
      | _ => none

/-- Preprocess one statement and execute the result. -/
def runPreprocessed (tbl : Table) (fuel : Nat) (src : List String) : Option Outcome :=
  match preprocess tbl fuel src with
  | .ok out => runStatement out
  | .error _ => none

/-- A C type, as far as declarators can build one. -/
inductive CType where
  | base (specifiers : List String)
  | pointer (target : CType)
  | array (size : List String) (element : CType)
  | function (parameters : List String) (result : CType)
deriving DecidableEq, Repr

/-- Type specifiers and qualifiers that may start a declaration. -/
def isTypeSpecifier (s : String) : Bool :=
  s ∈ ["void", "char", "short", "int", "long", "float", "double", "signed", "unsigned",
    "const", "volatile"]

/-- Split at the bracket that closes the one already opened: the tokens inside
and the tokens after the closing bracket. -/
def splitAtClose (opening closing : String) : Nat → List String → Option (List String × List String)
  | _, [] => none
  | depth, s :: ts =>
      if s = closing then
        match depth with
        | 0 => some ([], ts)
        | d + 1 =>
            match splitAtClose opening closing d ts with
            | some (inner, rest) => some (s :: inner, rest)
            | none => none
      else
        match splitAtClose opening closing (if s = opening then depth + 1 else depth) ts with
        | some (inner, rest) => some (s :: inner, rest)
        | none => none

/-- Array and function suffixes of a direct declarator (C11 6.7.6): zero or
more of `[ size ]` and `( parameters )`.  Returns the type constructor they
denote and the remaining tokens. -/
def declaratorSuffixes : Nat → List String → Option ((CType → CType) × List String)
  | 0, _ => none
  | fuel + 1, ts =>
      match ts with
      | s :: ts1 =>
          if s = "[" then
            match splitAtClose "[" "]" 0 ts1 with
            | some (size, rest) =>
                match declaratorSuffixes fuel rest with
                | some (w, rest1) => some (fun T => .array size (w T), rest1)
                | none => none
            | none => none
          else if s = "(" then
            match splitAtClose "(" ")" 0 ts1 with
            | some (ps, rest) =>
                match declaratorSuffixes fuel rest with
                | some (w, rest1) => some (fun T => .function ps (w T), rest1)
                | none => none
            | none => none
          else some (id, ts)
      | [] => some (id, [])

/-- Whether the tokens after `(` start a nested abstract declarator rather
than a parameter list. -/
def startsDeclarator (ts : List String) : Bool :=
  match ts with
  | s :: _ => s == "*" || s == "(" || s == "["
  | [] => false

/-- A declarator (C11 6.7.6) or, with `abstract = true`, an abstract declarator
(C11 6.7.7): `*`s, then an identifier or a parenthesised declarator (absent or
parenthesised abstract declarator), then suffixes.  Returns the declared
identifier, the type constructor and the remaining tokens. -/
def parseDeclarator (abstract : Bool) :
    Nat → List String → Option (Option String × (CType → CType) × List String)
  | 0, _ => none
  | fuel + 1, ts =>
      match ts with
      | s :: ts1 =>
          if s = "*" then
            match parseDeclarator abstract fuel ts1 with
            | some (name, w, rest) => some (name, fun T => w (.pointer T), rest)
            | none => none
          else if s = "(" ∧ (abstract = false ∨ startsDeclarator ts1 = true) then
            match parseDeclarator abstract fuel ts1 with
            | some (name, w, c :: rest) =>
                if c = ")" then
                  match declaratorSuffixes (rest.length + 1) rest with
                  | some (sw, rest1) => some (name, fun T => w (sw T), rest1)
                  | none => none
                else none
            | _ => none
          else if abstract then
            match declaratorSuffixes (ts.length + 1) ts with
            | some (sw, rest1) => some (none, sw, rest1)
            | none => none
          else if isIdentifier s ∧ isTypeSpecifier s = false then
            match declaratorSuffixes (ts1.length + 1) ts1 with
            | some (sw, rest1) => some (some s, sw, rest1)
            | none => none
          else none
      | [] => if abstract then some (none, id, []) else none

/-- The leading type specifiers and the tokens after them. -/
def splitSpecifiers : List String → List String × List String
  | [] => ([], [])
  | s :: ts =>
      if isTypeSpecifier s then (s :: (splitSpecifiers ts).1, (splitSpecifiers ts).2)
      else ([], s :: ts)

/-- A declaration `specifiers declarator` of one identifier: the identifier and
its type; `none` if the tokens are not such a declaration. -/
def parseDeclaration (ts : List String) : Option (String × CType) :=
  match splitSpecifiers ts with
  | ([], _) => none
  | (specs, rest) =>
      match parseDeclarator false (rest.length + 1) rest with
      | some (some name, w, []) => some (name, w (.base specs))
      | _ => none

/-- A type name `specifiers abstract-declarator` (C11 6.7.7): the type it
names; `none` if the tokens are not a type name. -/
def parseTypeName (ts : List String) : Option CType :=
  match splitSpecifiers ts with
  | ([], _) => none
  | (specs, rest) =>
      match parseDeclarator true (rest.length + 1) rest with
      | some (none, w, []) => some (w (.base specs))
      | _ => none

/-! ## Processing the header -/

theorem defineMacros_eq (cfg : Table) :
    defineMacros cfg =
      (if isDefined "USE_CHECKEDC" cfg then checkedDefs else uncheckedDefs) ++ cfg := by
  cases h : find? "USE_CHECKEDC" cfg <;>
    simp [defineMacros, macroBlocks, arrayPtrBlock, checkedBlock, dynamicCheckBlock,
      ntArrayPtrBlock, ntCheckedBlock, ptrBlock, uncheckedBlock, runDirectives, stepDirective,
      PPState.active, Frame.active, isDefined, find?, h, checkedDefs, uncheckedDefs]

theorem includeHeader_eq (cfg : Table) :
    includeHeader cfg =
      if isDefined "CHECKEDC_H" cfg then cfg
      else defineMacros (("CHECKEDC_H", ⟨none, []⟩) :: cfg) := by
  cases h : find? "CHECKEDC_H" cfg <;> cases h1 : find? "USE_CHECKEDC" cfg <;>
    simp [includeHeader, header, defineMacros, macroBlocks, arrayPtrBlock, checkedBlock,
      dynamicCheckBlock, ntArrayPtrBlock, ntCheckedBlock, ptrBlock, uncheckedBlock, runDirectives,
      stepDirective, PPState.active, Frame.active, isDefined, find?, h, h1]

theorem find_append_header (defs cfg : Table) (m : String)
    (h : (find? m defs).isSome = true) : find? m (defs ++ cfg) = find? m defs := by
  induction defs with
  | nil => simp [find?] at h
  | cons d defs ih =>
      obtain ⟨k, v⟩ := d
      by_cases hk : m = k
      · simp [find?, hk]
      · simp only [find?, hk, if_false, List.cons_append] at h ⊢
        exact ih h

theorem uncheckedTable_eq :
    uncheckedTable = uncheckedDefs ++ [("CHECKEDC_H", ⟨none, []⟩)] := rfl

theorem checkedTable_eq :
    checkedTable = checkedDefs ++ [("CHECKEDC_H", ⟨none, []⟩), ("USE_CHECKEDC", ⟨none, ["1"]⟩)] := rfl

/-! ## Basic lemmas about macro replacement -/

theorem map_ok {α β : Type} (f : α → β) (a : α) :
    (Except.ok a : Except PPError α).map f = .ok (f a) := rfl

theorem map_map {α β γ : Type} (f : α → β) (g : β → γ) (r : Except PPError α) :
    (r.map f).map g = r.map (g ∘ f) := by
  cases r <;> rfl

theorem addHide_text (hs : List String) (ts : List Tok) :
    (addHide hs ts).map Tok.text = ts.map Tok.text := by
  simp [addHide]

theorem addHide_length (hs : List String) (ts : List Tok) :
    (addHide hs ts).length = ts.length := by
  simp [addHide]

theorem inert_addHide (tbl : Table) (hs : List String) (ts : List Tok)
    (h : ∀ t ∈ ts, Inert tbl t) : ∀ t ∈ addHide hs ts, Inert tbl t := by
  intro t ht
  simp only [addHide, List.mem_map] at ht
  obtain ⟨u, hu, rfl⟩ := ht
  rcases h u hu with h1 | h1
  · exact Or.inl (List.mem_append_right _ h1)
  · exact Or.inr h1

theorem inert_fresh (tbl : Table) (a : List String) (h : macroFree tbl a = true) :
    ∀ t ∈ a.map Tok.fresh, Inert tbl t := by
  intro t ht
  simp only [List.mem_map] at ht
  obtain ⟨s, hs, rfl⟩ := ht
  simp only [macroFree, List.all_eq_true] at h
  have := h s hs
  right
  cases h1 : find? s tbl with
  | none => simpa [Tok.fresh] using h1
  | some d => simp [isDefined, h1] at this

theorem expand_cons_inert (tbl : Table) (fuel : Nat) (t : Tok) (rest : List Tok)
    (h : Inert tbl t) :
    expand tbl (fuel + 1) (t :: rest) = (expand tbl fuel rest).map (t :: ·) := by
  rcases h with h | h
  · simp [expand, h]
  · by_cases hh : t.text ∈ t.hide
    · simp [expand, hh]
    · simp [expand, hh, h]

theorem expand_inert_append (tbl : Table) (a : List Tok) (h : ∀ t ∈ a, Inert tbl t)
    (fuel : Nat) (rest : List Tok) :
    expand tbl (fuel + a.length) (a ++ rest) = (expand tbl fuel rest).map (a ++ ·) := by
  induction a with
  | nil => cases h1 : expand tbl fuel rest <;> simp [Except.map, h1]
  | cons t a ih =>
      have ht : Inert tbl t := h t (List.mem_cons_self _ _)
      have ha : ∀ u ∈ a, Inert tbl u := fun u hu => h u (List.mem_cons_of_mem _ hu)
      rw [List.length_cons, ← Nat.add_assoc, List.cons_append, expand_cons_inert tbl _ t _ ht,
        ih ha, map_map]
      rfl

theorem expand_inert (tbl : Table) (a : List Tok) (h : ∀ t ∈ a, Inert tbl t)
    (fuel : Nat) (hf : a.length < fuel) : expand tbl fuel a = .ok a := by
  obtain ⟨k, rfl⟩ : ∃ k, fuel = (k + 1) + a.length := ⟨fuel - a.length - 1, by omega⟩
  have := expand_inert_append tbl a h (k + 1) []
  simpa [expand, Except.map] using this

theorem collectArgs_scan (a : List Tok) :
    ∀ (d d1 : Nat) (cur rest : List Tok), scanArg d (a.map Tok.text) = some d1 →
      collectArgs d cur (a ++ rest) = collectArgs d1 (cur ++ a) rest := by
  induction a with
  | nil => intro d d1 cur rest h; simp [scanArg] at h; simp [h]
  | cons t a ih =>
      intro d d1 cur rest h
      simp only [List.map_cons, scanArg] at h
      by_cases h1 : t.text = ")"
      · cases d with
        | zero => simp [h1] at h
        | succ d0 =>
            simp only [h1, if_true] at h
            simp [collectArgs, h1, ih d0 d1 (cur ++ [t]) rest h]
      · by_cases h2 : t.text = "("
        · simp only [h1, h2, if_false, if_true] at h
          simp [collectArgs, h2, ih (d + 1) d1 (cur ++ [t]) rest h]
        · by_cases h3 : t.text = "," ∧ d = 0
          · simp [h1, h2, h3] at h
          · simp only [h1, h2, h3, if_false] at h
            simp [collectArgs, h1, h2, h3, ih d d1 (cur ++ [t]) rest h]

theorem collectArgs_comma (a : List Tok) (ha : isArg (a.map Tok.text) = true) (c : Tok)
    (hc : c.text = ",") (cur rest : List Tok) :
    collectArgs 0 cur (a ++ c :: rest) =
      match collectArgs 0 [] rest with
      | none => none
      | some (args, close, rest1) => some ((cur ++ a) :: args, close, rest1) := by
  simp only [isArg, beq_iff_eq] at ha
  rw [collectArgs_scan a 0 0 cur _ ha]
  simp [collectArgs, hc]

theorem collectArgs_close (a : List Tok) (ha : isArg (a.map Tok.text) = true) (c : Tok)
    (hc : c.text = ")") (cur rest : List Tok) :
    collectArgs 0 cur (a ++ c :: rest) = some ([cur ++ a], c, rest) := by
  simp only [isArg, beq_iff_eq] at ha
  rw [collectArgs_scan a 0 0 cur _ ha]
  simp [collectArgs, hc]

theorem collectArgs_two (a1 a2 rest : List Tok) (c1 rp : Tok)
    (h1 : isArg (a1.map Tok.text) = true) (h2 : isArg (a2.map Tok.text) = true)
    (hc1 : c1.text = ",") (hrp : rp.text = ")") :
    collectArgs 0 [] (a1 ++ c1 :: (a2 ++ rp :: rest)) = some ([a1, a2], rp, rest) := by
  rw [collectArgs_comma a1 h1 c1 hc1, collectArgs_close a2 h2 rp hrp]
  simp

theorem collectArgs_three (a1 a2 a3 rest : List Tok) (c1 c2 rp : Tok)
    (h1 : isArg (a1.map Tok.text) = true) (h2 : isArg (a2.map Tok.text) = true)
    (h3 : isArg (a3.map Tok.text) = true)
    (hc1 : c1.text = ",") (hc2 : c2.text = ",") (hrp : rp.text = ")") :
    collectArgs 0 [] (a1 ++ c1 :: (a2 ++ c2 :: (a3 ++ rp :: rest))) =
      some ([a1, a2, a3], rp, rest) := by
  rw [collectArgs_comma a1 h1 c1 hc1, collectArgs_two a2 a3 rest c2 rp h2 h3 hc2 hrp]
  simp

/-- One replacement step for an invocation with two arguments. -/
theorem expand_call2 (tbl : Table) (fuel : Nat) (hd lp c1 rp : Tok) (a1 a2 rest : List Tok)
    (p1 p2 : String) (body : List String)
    (hfind : find? hd.text tbl = some ⟨some [p1, p2], body⟩) (hfree : hd.text ∉ hd.hide)
    (hlp : lp.text = "(") (hc1 : c1.text = ",") (hrp : rp.text = ")")
    (h1 : isArg (a1.map Tok.text) = true) (h2 : isArg (a2.map Tok.text) = true) :
    expand tbl (fuel + 1) (hd :: lp :: (a1 ++ c1 :: (a2 ++ rp :: rest))) =
      match expandArgs (expand tbl fuel) body [p1, p2] [a1, a2] with
      | .error e => .error e
      | .ok bs =>
          expand tbl fuel
            (addHide (hd.text :: hd.hide.filter (· ∈ rp.hide)) (substitute bs body) ++ rest) := by
  simp [expand, hfree, hfind, hlp, collectArgs_two a1 a2 rest c1 rp h1 h2 hc1 hrp, arityOk]

/-- One replacement step for an invocation with three arguments. -/
theorem expand_call3 (tbl : Table) (fuel : Nat) (hd lp c1 c2 rp : Tok)
    (a1 a2 a3 rest : List Tok) (p1 p2 p3 : String) (body : List String)
    (hfind : find? hd.text tbl = some ⟨some [p1, p2, p3], body⟩) (hfree : hd.text ∉ hd.hide)
    (hlp : lp.text = "(") (hc1 : c1.text = ",") (hc2 : c2.text = ",") (hrp : rp.text = ")")
    (h1 : isArg (a1.map Tok.text) = true) (h2 : isArg (a2.map Tok.text) = true)
    (h3 : isArg (a3.map Tok.text) = true) :
    expand tbl (fuel + 1) (hd :: lp :: (a1 ++ c1 :: (a2 ++ c2 :: (a3 ++ rp :: rest)))) =
      match expandArgs (expand tbl fuel) body [p1, p2, p3] [a1, a2, a3] with
      | .error e => .error e
      | .ok bs =>
          expand tbl fuel
            (addHide (hd.text :: hd.hide.filter (· ∈ rp.hide)) (substitute bs body) ++ rest) := by
  simp [expand, hfree, hfind, hlp, collectArgs_three a1 a2 a3 rest c1 c2 rp h1 h2 h3 hc1 hc2 hrp,
    arityOk]

/-- One replacement step for an object-like macro. -/
theorem expand_object (tbl : Table) (fuel : Nat) (hd : Tok) (rest : List Tok) (body : List String)
    (hfind : find? hd.text tbl = some ⟨none, body⟩) (hfree : hd.text ∉ hd.hide) :
    expand tbl (fuel + 1) (hd :: rest) =
      expand tbl fuel (addHide (hd.text :: hd.hide) (body.map Tok.fresh) ++ rest) := by
  simp [expand, hfree, hfind]

/-! ## Identifiers and single-token arguments -/

theorem isArg_single (n : String) (h : isIdentifier n = true) : isArg [n] = true := by
  have h1 : n ≠ ")" := by rintro rfl; revert h; decide
  have h2 : n ≠ "(" := by rintro rfl; revert h; decide
  have h3 : n ≠ "," := by rintro rfl; revert h; decide
  simp [isArg, scanArg, h1, h2, h3]

theorem inert_single (tbl : Table) (n : String) (hs : List String)
    (h : isDefined n tbl = false) : Inert tbl ⟨n, hs⟩ := by
  right
  cases h1 : find? n tbl with
  | none => rfl
  | some d => simp [isDefined, h1] at h

/-! ## Unchecked mode: `ptr`, `array_ptr`, `nt_array_ptr` -/

/-- Replacement of `ptr(n, t)` in unchecked mode, for tokens with arbitrary
hide sets: the invocation is replaced by `t * n` and scanning continues after
the closing parenthesis. -/
theorem ptr_unchecked_expand (fuel : Nat) (hd lp nT cm rp : Tok) (tT rest : List Tok)
    (hhd : hd.text = "ptr") (hfree : "ptr" ∉ hd.hide)
    (hlp : lp.text = "(") (hcm : cm.text = ",") (hrp : rp.text = ")")
    (hn : isArg [nT.text] = true) (hnI : Inert uncheckedTable nT)
    (ht : isArg (tT.map Tok.text) = true) (htI : ∀ x ∈ tT, Inert uncheckedTable x) :
    expand uncheckedTable (fuel + (tT.length + 3)) (hd :: lp :: nT :: cm :: (tT ++ rp :: rest)) =
      (expand uncheckedTable fuel rest).map
        (addHide ("ptr" :: hd.hide.filter (· ∈ rp.hide)) (tT ++ [Tok.fresh "*", nT]) ++ ·) := by
  have hfind : find? hd.text uncheckedTable = some ⟨some ["n", "t"], ["t", "*", "n"]⟩ := by
    rw [hhd]; rfl
  have e1 : expand uncheckedTable (fuel + tT.length + 2) [nT] = .ok [nT] :=
    expand_inert _ [nT] (by simpa using hnI) _ (by simp)
  have e2 : expand uncheckedTable (fuel + tT.length + 2) tT = .ok tT :=
    expand_inert _ tT htI _ (by omega)
  have step := expand_call2 uncheckedTable (fuel + tT.length + 2) hd lp cm rp [nT] tT rest
    "n" "t" ["t", "*", "n"] hfind (by rw [hhd]; exact hfree) hlp hcm hrp (by simpa using hn) ht
  have e3 : fuel + (tT.length + 3) = fuel + tT.length + 2 + 1 := by omega
  rw [e3]
  simp only [List.singleton_append] at step
  rw [step]
  simp only [expandArgs, e1, e2, List.mem_cons, List.mem_singleton, true_or, or_true, if_true]
  have hsub : substitute [("n", [nT]), ("t", tT)] ["t", "*", "n"] = tT ++ [Tok.fresh "*", nT] := by
    simp [substitute, binding?]
  rw [hsub, hhd]
  have hI : ∀ x ∈ addHide ("ptr" :: hd.hide.filter (· ∈ rp.hide)) (tT ++ [Tok.fresh "*", nT]),
      Inert uncheckedTable x := by
    apply inert_addHide
    intro x hx
    simp only [List.mem_append, List.mem_cons, List.mem_singleton, List.not_mem_nil, or_false] at hx
    rcases hx with hx | rfl | rfl
    · exact htI x hx
    · right; rfl
    · exact hnI
  have e4 : fuel + tT.length + 2 =
      fuel + (addHide ("ptr" :: hd.hide.filter (· ∈ rp.hide)) (tT ++ [Tok.fresh "*", nT])).length := by
    simp [addHide_length]; omega
  rw [e4, expand_inert_append _ _ hI]

theorem find_forward (name : String) (h : forwardsToPtr name = true) :
    find? name uncheckedTable = some ⟨some ["n", "t", "e"], ["ptr", "(", "n", ",", "t", ")"]⟩ := by
  simp only [forwardsToPtr, Bool.or_eq_true, beq_iff_eq] at h
  rcases h with rfl | rfl <;> rfl

/-- First replacement step of `array_ptr(n, t, e)` / `nt_array_ptr(n, t, e)`
in unchecked mode, for arbitrary argument tokens: the right-hand side does not
mention the third argument. -/
theorem forward_unchecked_step (fuel : Nat) (hd lp c1 c2 rp : Tok) (nA tA eA rest : List Tok)
    (hhd : forwardsToPtr hd.text = true) (hfree : hd.text ∉ hd.hide)
    (hlp : lp.text = "(") (hc1 : c1.text = ",") (hc2 : c2.text = ",") (hrp : rp.text = ")")
    (hn : isArg (nA.map Tok.text) = true) (ht : isArg (tA.map Tok.text) = true)
    (he : isArg (eA.map Tok.text) = true) :
    expand uncheckedTable (fuel + 1) (hd :: lp :: (nA ++ c1 :: (tA ++ c2 :: (eA ++ rp :: rest)))) =
      match expand uncheckedTable fuel nA with
      | .error e => .error e
      | .ok n1 =>
          match expand uncheckedTable fuel tA with
          | .error e => .error e
          | .ok t1 =>
              expand uncheckedTable fuel
                (addHide (hd.text :: hd.hide.filter (· ∈ rp.hide))
                  (Tok.fresh "ptr" :: Tok.fresh "(" :: (n1 ++ Tok.fresh "," :: (t1 ++ [Tok.fresh ")"])))
                  ++ rest) := by
  rw [expand_call3 uncheckedTable fuel hd lp c1 c2 rp nA tA eA rest "n" "t" "e"
    ["ptr", "(", "n", ",", "t", ")"] (find_forward _ hhd) hfree hlp hc1 hc2 hrp hn ht he]
  cases h1 : expand uncheckedTable fuel nA with
  | error e => simp [expandArgs, h1]
  | ok n1 =>
      cases h2 : expand uncheckedTable fuel tA with
      | error e => simp [expandArgs, h1, h2]
      | ok t1 => simp [expandArgs, h1, h2, substitute, binding?]

/-- Replacement of `array_ptr(n, t, e)` / `nt_array_ptr(n, t, e)` in unchecked
mode when `n` and `t` contain no macro names: the invocation is replaced by
`t * n`, whatever the tokens of `e` are. -/
theorem forward_unchecked_expand (fuel : Nat) (name n : String) (t : List String)
    (eA rest : List Tok) (hname : forwardsToPtr name = true)
    (hn : isIdentifier n = true) (hnF : isDefined n uncheckedTable = false)
    (ht : isArg t = true) (htF : macroFree uncheckedTable t = true)
    (he : isArg (eA.map Tok.text) = true) :
    ∃ out : List Tok, out.map Tok.text = t ++ ["*", n] ∧
      expand uncheckedTable (fuel + (t.length + 4))
          (Tok.fresh name :: Tok.fresh "(" :: Tok.fresh n :: Tok.fresh "," ::
            (t.map Tok.fresh ++ Tok.fresh "," :: (eA ++ Tok.fresh ")" :: rest))) =
        (expand uncheckedTable fuel rest).map (out ++ ·) := by
  have hnA : isArg [n] = true := isArg_single n hn
  have htext : (t.map Tok.fresh).map Tok.text = t := by simp [Tok.fresh, Function.comp_def]
  have step := forward_unchecked_step (fuel + t.length + 3) (Tok.fresh name) (Tok.fresh "(")
    (Tok.fresh ",") (Tok.fresh ",") (Tok.fresh ")") [Tok.fresh n] (t.map Tok.fresh) eA rest
    hname (by simp [Tok.fresh]) rfl rfl rfl rfl (by simpa [Tok.fresh] using hnA)
    (by rw [htext]; exact ht) he
  have e0 : fuel + (t.length + 4) = fuel + t.length + 3 + 1 := by omega
  have e1 : expand uncheckedTable (fuel + t.length + 3) [Tok.fresh n] = .ok [Tok.fresh n] :=
    expand_inert _ _ (by simpa using inert_single _ n [] hnF) _ (by simp)
  have e2 : expand uncheckedTable (fuel + t.length + 3) (t.map Tok.fresh) = .ok (t.map Tok.fresh) :=
    expand_inert _ _ (inert_fresh _ t htF) _ (by simp; omega)
  simp only [List.singleton_append] at step
  have key := ptr_unchecked_expand fuel ⟨"ptr", [name]⟩ ⟨"(", [name]⟩ ⟨n, [name]⟩ ⟨",", [name]⟩
    ⟨")", [name]⟩ (addHide [name] (t.map Tok.fresh)) rest rfl
    (by
      simp only [forwardsToPtr, Bool.or_eq_true, beq_iff_eq] at hname
      rcases hname with rfl | rfl <;> decide)
    rfl rfl rfl (by simpa using hnA) (inert_single _ n _ hnF)
    (by rw [addHide_text, htext]; exact ht)
    (inert_addHide _ _ _ (inert_fresh _ t htF))
  refine ⟨addHide ("ptr" :: List.filter (fun x => decide (x ∈ [name])) [name])
    (addHide [name] (t.map Tok.fresh) ++ [Tok.fresh "*", ⟨n, [name]⟩]), ?_, ?_⟩
  · simp [addHide_text, htext, Tok.fresh]
  · rw [e0, step, e1, e2]
    have e3 : fuel + t.length + 3 = fuel + ((addHide [name] (t.map Tok.fresh)).length + 3) := by
      simp [addHide_length]; omega
    rw [e3, ← key]
    simp [Tok.fresh, addHide]

theorem map_fresh_text (a : List String) : (a.map Tok.fresh).map Tok.text = a := by
  simp [Tok.fresh, Function.comp_def]

theorem macroFree_result (tbl : Table) (n : String) (t mid : List String)
    (hnF : isDefined n tbl = false) (htF : macroFree tbl t = true)
    (hmid : macroFree tbl mid = true) : macroFree tbl (t ++ mid ++ [n]) = true := by
  simp only [macroFree, List.all_append, Bool.and_eq_true] at *
  exact ⟨⟨htF, hmid⟩, by simp [hnF]⟩

/-- Source-level form of `ptr_unchecked_expand`. -/
theorem ptr_unchecked_source (fuel : Nat) (n : String) (t rest : List String)
    (hn : isIdentifier n = true) (hnF : isDefined n uncheckedTable = false)
    (ht : isArg t = true) (htF : macroFree uncheckedTable t = true) :
    preprocess uncheckedTable (fuel + (t.length + 3)) (invoke "ptr" [[n], t] ++ rest) =
      (preprocess uncheckedTable fuel rest).map ((t ++ ["*", n]) ++ ·) := by
  have key := ptr_unchecked_expand fuel (Tok.fresh "ptr") (Tok.fresh "(") (Tok.fresh n)
    (Tok.fresh ",") (Tok.fresh ")") (t.map Tok.fresh) (rest.map Tok.fresh) rfl (by simp [Tok.fresh])
    rfl rfl rfl (by simpa [Tok.fresh] using isArg_single n hn) (inert_single _ n [] hnF)
    (by rw [map_fresh_text]; exact ht) (inert_fresh _ t htF)
  simp only [List.length_map] at key
  simp only [preprocess, invoke, joinArgs, List.map_cons, List.map_append, List.cons_append,
    List.nil_append, List.append_assoc, List.map_nil, List.singleton_append]
  rw [key, map_map, map_map]
  congr 1
  funext x
  simp [addHide_text, Tok.fresh, Function.comp_def]

/-- Source-level form of `forward_unchecked_expand`. -/
theorem forward_unchecked_source (fuel : Nat) (name n : String) (t e rest : List String)
    (hname : forwardsToPtr name = true)
    (hn : isIdentifier n = true) (hnF : isDefined n uncheckedTable = false)
    (ht : isArg t = true) (htF : macroFree uncheckedTable t = true) (he : isArg e = true) :
    preprocess uncheckedTable (fuel + (t.length + 4)) (invoke name [[n], t, e] ++ rest) =
      (preprocess uncheckedTable fuel rest).map ((t ++ ["*", n]) ++ ·) := by
  obtain ⟨out, hout, key⟩ := forward_unchecked_expand fuel name n t (e.map Tok.fresh)
    (rest.map Tok.fresh) hname hn hnF ht htF (by rw [map_fresh_text]; exact he)
  simp only [preprocess, invoke, joinArgs, List.map_cons, List.map_append, List.cons_append,
    List.nil_append, List.append_assoc, List.map_nil, List.singleton_append]
  rw [key, map_map, map_map]
  congr 1
  funext x
  simp [hout]

theorem preprocess_nil (tbl : Table) (fuel : Nat) : preprocess tbl (fuel + 1) [] = .ok [] := rfl

/-! ## Checked mode: `ptr`, `array_ptr`, `nt_array_ptr` -/

/-- Replacement of `ptr(n, t)` in checked mode. -/
theorem ptr_checked_source (fuel : Nat) (n : String) (t rest : List String)
    (hn : isIdentifier n = true) (hnF : isDefined n checkedTable = false)
    (ht : isArg t = true) (htF : macroFree checkedTable t = true) :
    preprocess checkedTable (fuel + (t.length + 5)) (invoke "ptr" [[n], t] ++ rest) =
      (preprocess checkedTable fuel rest).map (("_Ptr" :: "<" :: (t ++ [">", n])) ++ ·) := by
  have hnI : Inert checkedTable (Tok.fresh n) := inert_single _ n [] hnF
  have htI := inert_fresh _ t htF
  have e1 : expand checkedTable (fuel + t.length + 4) [Tok.fresh n] = .ok [Tok.fresh n] :=
    expand_inert _ _ (by simpa using hnI) _ (by simp)
  have e2 : expand checkedTable (fuel + t.length + 4) (t.map Tok.fresh) = .ok (t.map Tok.fresh) :=
    expand_inert _ _ htI _ (by simp; omega)
  have step := expand_call2 checkedTable (fuel + t.length + 4) (Tok.fresh "ptr") (Tok.fresh "(")
    (Tok.fresh ",") (Tok.fresh ")") [Tok.fresh n] (t.map Tok.fresh) (rest.map Tok.fresh)
    "n" "t" ["_Ptr", "<", "t", ">", "n"] rfl (by simp [Tok.fresh]) rfl rfl rfl
    (by simpa [Tok.fresh] using isArg_single n hn) (by rw [map_fresh_text]; exact ht)
  have hsub : substitute [("n", [Tok.fresh n]), ("t", t.map Tok.fresh)]
      ["_Ptr", "<", "t", ">", "n"] =
      Tok.fresh "_Ptr" :: Tok.fresh "<" :: (t.map Tok.fresh ++ [Tok.fresh ">", Tok.fresh n]) := by
    simp [substitute, binding?]
  simp only [expandArgs, e1, e2, List.mem_cons, List.mem_singleton, true_or, or_true, if_true,
    hsub, List.singleton_append] at step
  have hI : ∀ x ∈ addHide ["ptr"]
      (Tok.fresh "_Ptr" :: Tok.fresh "<" :: (t.map Tok.fresh ++ [Tok.fresh ">", Tok.fresh n])),
      Inert checkedTable x := by
    apply inert_addHide
    intro x hx
    simp only [List.mem_append, List.mem_cons, List.mem_singleton, List.not_mem_nil, or_false] at hx
    rcases hx with rfl | rfl | hx | rfl | rfl
    · right; rfl
    · right; rfl
    · exact htI x hx
    · right; rfl
    · exact hnI
  have e3 : fuel + t.length + 4 = fuel + (addHide ["ptr"]
      (Tok.fresh "_Ptr" :: Tok.fresh "<" :: (t.map Tok.fresh ++ [Tok.fresh ">", Tok.fresh n]))).length := by
    simp [addHide_length]; omega
  have e0 : fuel + (t.length + 5) = fuel + t.length + 4 + 1 := by omega
  simp only [preprocess, invoke, joinArgs, List.map_cons, List.map_append, List.cons_append,
    List.nil_append, List.append_assoc, List.map_nil, List.singleton_append]
  rw [e0, step]
  simp only [Tok.fresh, List.filter_nil]
  simp only [Tok.fresh] at e3 hI
  rw [e3, expand_inert_append _ _ hI, map_map, map_map]
  congr 1
  funext x
  simp [addHide, Function.comp_def, Tok.fresh]

theorem find_bounded (name : String) (h : forwardsToPtr name = true) :
    find? name checkedTable =
      some ⟨some ["n", "t", "e"], [boundedKeyword name, "<", "t", ">", "n", ":", "e"]⟩ := by
  simp only [forwardsToPtr, Bool.or_eq_true, beq_iff_eq] at h
  rcases h with rfl | rfl <;> rfl

theorem boundedKeyword_free (name : String) (h : forwardsToPtr name = true) :
    find? (boundedKeyword name) checkedTable = none ∧ boundedKeyword name ≠ "n" ∧
      boundedKeyword name ≠ "t" ∧ boundedKeyword name ≠ "e" := by
  simp only [forwardsToPtr, Bool.or_eq_true, beq_iff_eq] at h
  rcases h with rfl | rfl <;> decide

/-- Replacement of `array_ptr(n, t, e)` / `nt_array_ptr(n, t, e)` in checked mode. -/
theorem bounded_checked_source (fuel : Nat) (name n : String) (t e rest : List String)
    (hname : forwardsToPtr name = true)
    (hn : isIdentifier n = true) (hnF : isDefined n checkedTable = false)
    (ht : isArg t = true) (htF : macroFree checkedTable t = true)
    (he : isArg e = true) (heF : macroFree checkedTable e = true) :
    preprocess checkedTable (fuel + (t.length + e.length + 6)) (invoke name [[n], t, e] ++ rest) =
      (preprocess checkedTable fuel rest).map
        ((boundedKeyword name :: "<" :: (t ++ ">" :: n :: ":" :: e)) ++ ·) := by
  have hnI : Inert checkedTable (Tok.fresh n) := inert_single _ n [] hnF
  have htI := inert_fresh _ t htF
  have heI := inert_fresh _ e heF
  obtain ⟨hk0, hk1, hk2, hk3⟩ := boundedKeyword_free name hname
  have e1 : expand checkedTable (fuel + t.length + e.length + 5) [Tok.fresh n] = .ok [Tok.fresh n] :=
    expand_inert _ _ (by simpa using hnI) _ (by simp)
  have e2 : expand checkedTable (fuel + t.length + e.length + 5) (t.map Tok.fresh) =
      .ok (t.map Tok.fresh) := expand_inert _ _ htI _ (by simp; omega)
  have e4 : expand checkedTable (fuel + t.length + e.length + 5) (e.map Tok.fresh) =
      .ok (e.map Tok.fresh) := expand_inert _ _ heI _ (by simp; omega)
  have step := expand_call3 checkedTable (fuel + t.length + e.length + 5) (Tok.fresh name)
    (Tok.fresh "(") (Tok.fresh ",") (Tok.fresh ",") (Tok.fresh ")") [Tok.fresh n]
    (t.map Tok.fresh) (e.map Tok.fresh) (rest.map Tok.fresh)
    "n" "t" "e" [boundedKeyword name, "<", "t", ">", "n", ":", "e"] (find_bounded name hname)
    (by simp [Tok.fresh]) rfl rfl rfl rfl
    (by simpa [Tok.fresh] using isArg_single n hn) (by rw [map_fresh_text]; exact ht)
    (by rw [map_fresh_text]; exact he)
  have hsub : substitute [("n", [Tok.fresh n]), ("t", t.map Tok.fresh), ("e", e.map Tok.fresh)]
      [boundedKeyword name, "<", "t", ">", "n", ":", "e"] =
      Tok.fresh (boundedKeyword name) :: Tok.fresh "<" ::
        (t.map Tok.fresh ++ Tok.fresh ">" :: Tok.fresh n :: Tok.fresh ":" :: e.map Tok.fresh) := by
    simp [substitute, binding?, hk1, hk2, hk3]
  simp only [expandArgs, e1, e2, e4, List.mem_cons, List.mem_singleton, true_or, or_true, if_true,
    hsub, List.singleton_append] at step
  have hI : ∀ x ∈ addHide [name]
      (Tok.fresh (boundedKeyword name) :: Tok.fresh "<" ::
        (t.map Tok.fresh ++ Tok.fresh ">" :: Tok.fresh n :: Tok.fresh ":" :: e.map Tok.fresh)),
      Inert checkedTable x := by
    apply inert_addHide
    intro x hx
    simp only [List.mem_append, List.mem_cons] at hx
    rcases hx with rfl | rfl | hx | rfl | rfl | rfl | hx
    · right; exact hk0
    · right; rfl
    · exact htI x hx
    · right; rfl
    · exact hnI
    · right; rfl
    · exact heI x hx
  have e3 : fuel + t.length + e.length + 5 = fuel + (addHide [name]
      (Tok.fresh (boundedKeyword name) :: Tok.fresh "<" ::
        (t.map Tok.fresh ++ Tok.fresh ">" :: Tok.fresh n :: Tok.fresh ":" :: e.map Tok.fresh))).length := by
    simp [addHide_length]; omega
  have e0 : fuel + (t.length + e.length + 6) = fuel + t.length + e.length + 5 + 1 := by omega
  simp only [preprocess, invoke, joinArgs, List.map_cons, List.map_append, List.cons_append,
    List.nil_append, List.append_assoc, List.map_nil, List.singleton_append]
  rw [e0, step]
  simp only [Tok.fresh, List.filter_nil]
  simp only [Tok.fresh] at e3 hI
  rw [e3, expand_inert_append _ _ hI, map_map, map_map]
  congr 1
  funext x
  simp [addHide, Function.comp_def, Tok.fresh]

/-! ## More fuel never changes a result -/

theorem expandArgs_mono (rec1 rec2 : List Tok → Except PPError (List Tok)) (body : List String)
    (h : ∀ a r, rec1 a = .ok r → rec2 a = .ok r) :
    ∀ (params : List String) (args : List (List Tok)) (bs : List (String × List Tok)),
      expandArgs rec1 body params args = .ok bs → expandArgs rec2 body params args = .ok bs := by
  intro params
  induction params with
  | nil => intro args bs hb; simpa [expandArgs] using hb
  | cons p ps ih =>
      intro args bs hb
      cases args with
      | nil => simpa [expandArgs] using hb
      | cons a as =>
          simp only [expandArgs] at hb ⊢
          by_cases hp : p ∈ body
          · simp only [hp, if_true] at hb ⊢
            cases h1 : rec1 a with
            | error e => simp [h1] at hb
            | ok a1 =>
                rw [h1] at hb
                rw [h a a1 h1]
                cases h2 : expandArgs rec1 body ps as with
                | error e => simp [h2] at hb
                | ok bs1 =>
                    rw [h2] at hb
                    rw [ih as bs1 h2]
                    exact hb
          · simp only [hp, if_false] at hb ⊢
            cases h2 : expandArgs rec1 body ps as with
            | error e => simp [h2] at hb
            | ok bs1 =>
                rw [h2] at hb
                rw [ih as bs1 h2]
                exact hb

theorem map_eq_ok {α β : Type} (f : α → β) (r : Except PPError α) (b : β)
    (h : r.map f = .ok b) : ∃ a, r = .ok a ∧ f a = b := by
  cases r with
  | error e => simp [Except.map] at h
  | ok a => exact ⟨a, rfl, by simpa [Except.map] using h⟩

theorem expand_mono_step (tbl : Table) :
    ∀ (fuel : Nat) (ts out : List Tok), expand tbl fuel ts = .ok out →
      expand tbl (fuel + 1) ts = .ok out := by
  intro fuel
  induction fuel with
  | zero => intro ts out h; simp [expand] at h
  | succ f ih =>
      intro ts out h
      cases ts with
      | nil => simpa [expand] using h
      | cons t rest =>
          rw [expand] at h ⊢
          by_cases hh : t.text ∈ t.hide
          · simp only [hh, if_true] at h ⊢
            obtain ⟨a, ha, hb⟩ := map_eq_ok _ _ _ h
            rw [ih rest a ha, map_ok, hb]
          · simp only [hh, if_false] at h ⊢
            cases hf : find? t.text tbl with
            | none =>
                simp only [hf] at h ⊢
                obtain ⟨a, ha, hb⟩ := map_eq_ok _ _ _ h
                rw [ih rest a ha, map_ok, hb]
            | some d =>
                obtain ⟨params, body⟩ := d
                cases params with
                | none =>
                    simp only [hf] at h ⊢
                    exact ih _ _ h
                | some ps =>
                    simp only [hf] at h ⊢
                    cases rest with
                    | nil => simpa using h
                    | cons p rest1 =>
                        simp only at h ⊢
                        by_cases hp : p.text = "("
                        · simp only [hp, if_true] at h ⊢
                          cases hc : collectArgs 0 [] rest1 with
                          | none => simp [hc] at h
                          | some r =>
                              obtain ⟨args, close, rest2⟩ := r
                              simp only [hc] at h ⊢
                              by_cases ha : arityOk ps args = true
                              · simp only [ha, if_true] at h ⊢
                                cases hb : expandArgs (expand tbl f) body ps args with
                                | error e => simp [hb] at h
                                | ok bs =>
                                    rw [hb] at h
                                    rw [expandArgs_mono _ (expand tbl (f + 1)) body
                                      (fun a r har => ih a r har) ps args bs hb]
                                    exact ih _ _ h
                              · simp [ha] at h
                        · simp only [hp, if_false] at h ⊢
                          obtain ⟨a, ha, hb⟩ := map_eq_ok _ _ _ h
                          rw [ih _ a ha, map_ok, hb]

theorem expand_mono (tbl : Table) (fuel fuel1 : Nat) (ts out : List Tok)
    (h : expand tbl fuel ts = .ok out) (hle : fuel ≤ fuel1) : expand tbl fuel1 ts = .ok out := by
  induction hle with
  | refl => exact h
  | step _ ih => exact expand_mono_step tbl _ ts out ih

/-- A result obtained with some fuel is obtained with any larger fuel. -/
theorem preprocess_mono (tbl : Table) (fuel fuel1 : Nat) (src out : List String)
    (h : preprocess tbl fuel src = .ok out) (hle : fuel ≤ fuel1) :
    preprocess tbl fuel1 src = .ok out := by
  unfold preprocess at h ⊢
  obtain ⟨a, ha, hb⟩ := map_eq_ok _ _ _ h
  rw [expand_mono tbl fuel fuel1 _ a ha hle, map_ok, hb]

/-- Two results for the same source are equal, whatever the fuel. -/
theorem preprocess_unique (tbl : Table) (f1 f2 : Nat) (src out1 out2 : List String)
    (h1 : preprocess tbl f1 src = .ok out1) (h2 : preprocess tbl f2 src = .ok out2) :
    out1 = out2 := by
  have a := preprocess_mono tbl f1 (max f1 f2) src out1 h1 (Nat.le_max_left _ _)
  have b := preprocess_mono tbl f2 (max f1 f2) src out2 h2 (Nat.le_max_right _ _)
  rw [a] at b
  exact Except.ok.inj b

/-! ## The object-like macros -/

theorem unchecked_object_empty (s : String) (body : List String)
    (h : find? s uncheckedTable = some ⟨none, body⟩) : body = [] := by
  simp only [uncheckedTable_eq, uncheckedDefs, find?, List.cons_append, List.nil_append] at h
  split_ifs at h <;> simp_all

/-- In unchecked mode a source without function-like macro names is
preprocessed by deleting the names of the (object-like) macros. -/
theorem expand_objects_unchecked (src : List String)
    (h : ∀ s ∈ src, isFunctionLike uncheckedTable s = false) :
    ∀ fuel, src.length < fuel →
      expand uncheckedTable fuel (src.map Tok.fresh) =
        .ok ((src.filter fun s => !isDefined s uncheckedTable).map Tok.fresh) := by
  induction src with
  | nil => intro fuel hf; cases fuel with
    | zero => omega
    | succ f => rfl
  | cons s src ih =>
      intro fuel hf
      have hs := h s (List.mem_cons_self _ _)
      have ih1 := ih (fun u hu => h u (List.mem_cons_of_mem _ hu))
      cases fuel with
      | zero => omega
      | succ f =>
          have hlen : src.length < f := by simpa using hf
          cases hfind : find? s uncheckedTable with
          | none =>
              rw [List.map_cons, expand_cons_inert _ _ _ _ (Or.inr hfind), ih1 f hlen]
              simp [isDefined, hfind, Except.map]
          | some d =>
              obtain ⟨params, body⟩ := d
              cases params with
              | some ps => simp [isFunctionLike, hfind] at hs
              | none =>
                  have hb := unchecked_object_empty s body hfind
                  subst hb
                  rw [List.map_cons, expand_object _ _ _ _ [] hfind (by simp [Tok.fresh])]
                  simp only [List.map_nil, addHide, List.nil_append]
                  rw [ih1 f hlen]
                  simp [isDefined, hfind]

theorem preprocess_macroFree (tbl : Table) (src : List String) (h : macroFree tbl src = true)
    (fuel : Nat) (hf : src.length < fuel) : preprocess tbl fuel src = .ok src := by
  unfold preprocess
  rw [expand_inert tbl _ (inert_fresh tbl src h) fuel (by simpa using hf), map_ok, map_fresh_text]

/-- From a replacement inside any context to the replacement of the source
that consists of the invocation alone. -/
theorem preprocess_alone (tbl : Table) (src out : List String) (k : Nat)
    (h : ∀ fuel, preprocess tbl (fuel + k) (src ++ []) =
      (preprocess tbl fuel []).map (out ++ ·))
    (fuel : Nat) (hf : k + 1 ≤ fuel) : preprocess tbl fuel src = .ok out := by
  obtain ⟨f, rfl⟩ : ∃ f, fuel = (f + 1) + k := ⟨fuel - k - 1, by omega⟩
  have := h (f + 1)
  rw [List.append_nil] at this
  rw [this, preprocess_nil, map_ok, List.append_nil]

/-- In checked mode an object-like macro of the header is replaced by its
keyword, whatever follows. -/
theorem keyword_checked (name kw : String)
    (hfind : find? name checkedTable = some ⟨none, [kw]⟩) (hkw : find? kw checkedTable = none)
    (fuel : Nat) (rest : List String) :
    preprocess checkedTable (fuel + 2) (name :: rest) =
      (preprocess checkedTable fuel rest).map (kw :: ·) := by
  unfold preprocess
  rw [List.map_cons, expand_object checkedTable (fuel + 1) (Tok.fresh name) _ [kw] hfind
    (by simp [Tok.fresh])]
  simp only [addHide, Tok.fresh, List.map_cons, List.map_nil, List.append_nil, List.cons_append,
    List.nil_append]
  rw [expand_cons_inert checkedTable fuel ⟨kw, [name]⟩ _ (Or.inr hkw), map_map, map_map]
  rfl

/-- In unchecked mode an object-like macro of the header is deleted, whatever
follows. -/
theorem marker_unchecked (name : String)
    (hfind : find? name uncheckedTable = some ⟨none, []⟩)
    (fuel : Nat) (rest : List String) :
    preprocess uncheckedTable (fuel + 1) (name :: rest) = preprocess uncheckedTable fuel rest := by
  unfold preprocess
  rw [List.map_cons, expand_object uncheckedTable fuel (Tok.fresh name) _ [] hfind
    (by simp [Tok.fresh])]
  simp [addHide]

/-! ## Unchecked mode: deleting the markers from a source with invocations -/

theorem functionLike_unchecked (s : String) (params body : List String)
    (h : find? s uncheckedTable = some ⟨some params, body⟩) :
    (s = "ptr" ∧ params = ["n", "t"] ∧ body = ["t", "*", "n"]) ∨
      (forwardsToPtr s = true ∧ params = ["n", "t", "e"] ∧
        body = ["ptr", "(", "n", ",", "t", ")"]) := by
  simp only [uncheckedTable_eq, uncheckedDefs, find?, List.cons_append, List.nil_append] at h
  split_ifs at h <;> simp_all [forwardsToPtr]

theorem isFunctionLike_names (s : String) (h : isFunctionLike uncheckedTable s = true) :
    s = "ptr" ∨ s = "array_ptr" ∨ s = "nt_array_ptr" := by
  unfold isFunctionLike at h
  cases hf : find? s uncheckedTable with
  | none => simp [hf] at h
  | some d =>
      obtain ⟨params, body⟩ := d
      cases params with
      | none => simp [hf] at h
      | some ps =>
          rcases functionLike_unchecked s ps body hf with ⟨h1, -⟩ | ⟨h1, -⟩
          · exact Or.inl h1
          · simp only [forwardsToPtr, Bool.or_eq_true, beq_iff_eq] at h1
            exact Or.inr h1

theorem isMarker_find (s : String) (h : isMarker s = true) :
    find? s uncheckedTable = some ⟨none, []⟩ := by
  simp only [isMarker, Bool.or_eq_true, beq_iff_eq] at h
  rcases h with (rfl | rfl) | rfl <;> rfl

theorem not_marker_of_functionLike (s : String) (h : isFunctionLike uncheckedTable s = true) :
    isMarker s = false := by
  rcases isFunctionLike_names s h with rfl | rfl | rfl <;> rfl

theorem not_marker_of_inert (t : Tok) (hh : ∀ h ∈ t.hide, isFunctionLike uncheckedTable h = true)
    (h : Inert uncheckedTable t) : isMarker t.text = false := by
  rcases h with h | h
  · exact not_marker_of_functionLike _ (hh _ h)
  · cases hm : isMarker t.text with
    | false => rfl
    | true => rw [isMarker_find _ hm] at h; cases h

theorem not_active_of_inert (t : Tok) (h : Inert uncheckedTable t) : isActive t = false := by
  rcases h with h | h
  · simp [isActive, h]
  · simp [isActive, isFunctionLike, h]

theorem deleteMarkers_eq (src : List String) :
    deleteMarkers src = src.filter fun s => !isMarker s := rfl

theorem stripMarkers_fresh (src : List String) :
    stripMarkers (src.map Tok.fresh) = (deleteMarkers src).map Tok.fresh := by
  induction src with
  | nil => rfl
  | cons s src ih =>
      simp only [List.map_cons, stripMarkers, deleteMarkers_eq, List.filter_cons] at ih ⊢
      cases hm : isMarker s <;> simp [Tok.fresh, hm, ih]

theorem callsOnly_fresh (src : List String) :
    callsOnly (src.map Tok.fresh) = invocationsOnly src := by
  induction src with
  | nil => rfl
  | cons s src ih =>
      simp only [List.map_cons, callsOnly, invocationsOnly, ih]
      congr 1
      cases src with
      | nil => simp [isActive, nextIsParen, Tok.fresh]
      | cons p src => simp [isActive, nextIsParen, Tok.fresh]

theorem hideOk_fresh (src : List String) : HideOk (src.map Tok.fresh) := by
  intro t ht h hh
  simp only [List.mem_map] at ht
  obtain ⟨s, -, rfl⟩ := ht
  simp [Tok.fresh] at hh

theorem callsOnly_tail (t : Tok) (rest : List Tok) (h : callsOnly (t :: rest) = true) :
    callsOnly rest = true := by
  simp only [callsOnly, Bool.and_eq_true] at h
  exact h.2

theorem callsOnly_split (a : List Tok) (s : Tok) (b : List Tok)
    (h : callsOnly (a ++ s :: b) = true) (hs : s.text ≠ "(") :
    callsOnly a = true ∧ callsOnly b = true := by
  induction a with
  | nil => exact ⟨rfl, callsOnly_tail s b h⟩
  | cons x a ih =>
      simp only [List.cons_append, callsOnly, Bool.and_eq_true] at h
      obtain ⟨ha, hb⟩ := ih h.2
      refine ⟨?_, hb⟩
      simp only [callsOnly, Bool.and_eq_true]
      refine ⟨?_, ha⟩
      cases a with
      | nil =>
          have h1 : (!isActive x || nextIsParen (s :: b)) = true := h.1
          have h2 : nextIsParen (s :: b) = false := by simp [nextIsParen, hs]
          rw [h2] at h1
          simp only [Bool.or_false, Bool.not_eq_true'] at h1
          simp [h1]
      | cons y a1 => simpa [nextIsParen] using h.1

theorem callsOnly_quiet_append (a b : List Tok) (ha : ∀ t ∈ a, isActive t = false) :
    callsOnly (a ++ b) = callsOnly b := by
  induction a with
  | nil => rfl
  | cons x a ih =>
      have hx : isActive x = false := ha x (List.mem_cons_self _ _)
      simp only [List.cons_append, callsOnly, hx, Bool.not_false, Bool.true_or, Bool.true_and]
      exact ih (fun t ht => ha t (List.mem_cons_of_mem _ ht))

theorem callsOnly_head (t : Tok) (rest : List Tok) (h : callsOnly (t :: rest) = true)
    (ht : isActive t = true) : ∃ p rest1, rest = p :: rest1 ∧ p.text = "(" := by
  simp only [callsOnly, ht, Bool.not_true, Bool.false_or, Bool.and_eq_true] at h
  cases rest with
  | nil => simp [nextIsParen] at h
  | cons p rest1 => exact ⟨p, rest1, rfl, by simpa [nextIsParen] using h.1⟩

theorem stripMarkers_append (a b : List Tok) :
    stripMarkers (a ++ b) = stripMarkers a ++ stripMarkers b := by
  simp [stripMarkers]

theorem collectArgs_strip (ts : List Tok) :
    ∀ (d : Nat) (cur : List Tok),
      collectArgs d (stripMarkers cur) (stripMarkers ts) =
        match collectArgs d cur ts with
        | none => none
        | some (args, close, rest) => some (args.map stripMarkers, close, stripMarkers rest) := by
  induction ts with
  | nil => intro d cur; simp [stripMarkers, collectArgs]
  | cons t ts ih =>
      intro d cur
      cases hm : isMarker t.text with
      | true =>
          have h1 : t.text ≠ ")" := by intro h; rw [h] at hm; revert hm; decide
          have h2 : t.text ≠ "(" := by intro h; rw [h] at hm; revert hm; decide
          have h3 : t.text ≠ "," := by intro h; rw [h] at hm; revert hm; decide
          have e1 : stripMarkers (t :: ts) = stripMarkers ts := by simp [stripMarkers, hm]
          have e2 : stripMarkers (cur ++ [t]) = stripMarkers cur := by
            simp [stripMarkers, hm]
          have e3 : collectArgs d cur (t :: ts) = collectArgs d (cur ++ [t]) ts := by
            simp [collectArgs, h1, h2, h3]
          rw [e1, e3, ← e2]
          exact ih d (cur ++ [t])
      | false =>
          have e1 : stripMarkers (t :: ts) = t :: stripMarkers ts := by simp [stripMarkers, hm]
          have e2 : stripMarkers (cur ++ [t]) = stripMarkers cur ++ [t] := by
            simp [stripMarkers, hm]
          rw [e1]
          by_cases h1 : t.text = ")"
          · cases d with
            | zero => simp [collectArgs, h1]
            | succ d0 =>
                simp only [collectArgs, h1, if_true]
                rw [← e2]
                exact ih d0 (cur ++ [t])
          · by_cases h2 : t.text = "("
            · simp only [collectArgs, h2, if_true]
              rw [← e2]
              simpa using ih (d + 1) (cur ++ [t])
            · by_cases h3 : t.text = "," ∧ d = 0
              · simp only [collectArgs, h1, h2, h3, if_false, if_true, and_self]
                have := ih 0 []
                have e0 : stripMarkers [] = [] := rfl
                rw [e0] at this
                rw [this]
                cases collectArgs 0 [] ts with
                | none => rfl
                | some r => obtain ⟨args, close, rest⟩ := r; simp
              · simp only [collectArgs, h1, h2, h3, if_false]
                rw [← e2]
                exact ih d (cur ++ [t])

theorem argsSpec_push (cur ts : List Tok) (t : Tok) (args : List (List Tok)) (rest : List Tok)
    (h : ArgsSpec (cur ++ [t]) ts args rest) : ArgsSpec cur (t :: ts) args rest := by
  obtain ⟨h1, h2, h3, h4⟩ := h
  refine ⟨?_, ?_, ?_, ?_⟩
  · simp only [List.length_append, List.length_cons, List.length_nil] at h1 ⊢
    omega
  · intro a ha x hx
    rcases h2 a ha x hx with h | h
    · rcases List.mem_append.mp h with h | h
      · exact Or.inl h
      · exact Or.inr (by simp at h; simp [h])
    · exact Or.inr (List.mem_cons_of_mem _ h)
  · intro x hx
    exact List.mem_cons_of_mem _ (h3 x hx)
  · intro hc
    apply h4
    simpa using hc

theorem collectArgs_spec (ts : List Tok) :
    ∀ (d : Nat) (cur : List Tok) (args : List (List Tok)) (close : Tok) (rest : List Tok),
      collectArgs d cur ts = some (args, close, rest) → ArgsSpec cur ts args rest := by
  induction ts with
  | nil => intro d cur args close rest h; simp [collectArgs] at h
  | cons t ts ih =>
      intro d cur args close rest h
      by_cases h1 : t.text = ")"
      · cases d with
        | zero =>
            simp only [collectArgs, h1, if_true, Option.some.injEq, Prod.mk.injEq] at h
            obtain ⟨rfl, -, rfl⟩ := h
            refine ⟨by simp; omega, ?_, ?_, ?_⟩
            · intro a ha x hx
              simp only [List.mem_singleton] at ha
              subst ha
              exact Or.inl hx
            · intro x hx; exact List.mem_cons_of_mem _ hx
            · intro hc
              obtain ⟨ha, hb⟩ := callsOnly_split cur t _ hc (by rw [h1]; decide)
              exact ⟨by simpa using ha, hb⟩
        | succ d0 =>
            simp only [collectArgs, h1, if_true] at h
            exact argsSpec_push _ _ _ _ _ (ih d0 (cur ++ [t]) args close rest h)
      · by_cases h2 : t.text = "("
        · simp only [collectArgs, h2, if_true] at h
          have h' : collectArgs (d + 1) (cur ++ [t]) ts = some (args, close, rest) := by
            simpa using h
          exact argsSpec_push _ _ _ _ _ (ih (d + 1) (cur ++ [t]) args close rest h')
        · by_cases h3 : t.text = "," ∧ d = 0
          · simp only [collectArgs, h1, h2, h3, if_false, if_true, and_self] at h
            cases hc : collectArgs 0 [] ts with
            | none => simp [hc] at h
            | some r =>
                obtain ⟨args1, close1, rest1⟩ := r
                obtain ⟨g1, g2, g3, g4⟩ := ih 0 [] args1 close1 rest1 hc
                simp only [hc, Option.some.injEq, Prod.mk.injEq] at h
                obtain ⟨rfl, -, rfl⟩ := h
                refine ⟨?_, ?_, ?_, ?_⟩
                · simp only [List.map_cons, List.sum_cons, List.length_cons, List.length_nil] at g1 ⊢
                  omega
                · intro a ha x hx
                  rcases List.mem_cons.mp ha with rfl | ha
                  · exact Or.inl hx
                  · rcases g2 a ha x hx with h | h
                    · simp at h
                    · exact Or.inr (List.mem_cons_of_mem _ h)
                · intro x hx; exact List.mem_cons_of_mem _ (g3 x hx)
                · intro hcall
                  obtain ⟨ha, hb⟩ := callsOnly_split cur t _ hcall (by rw [h3.1]; decide)
                  obtain ⟨k1, k2⟩ := g4 (by simpa using hb)
                  refine ⟨?_, k2⟩
                  intro a ha1
                  rcases List.mem_cons.mp ha1 with rfl | ha1
                  · exact ha
                  · exact k1 a ha1
          · simp only [collectArgs, h1, h2, h3, if_false] at h
            exact argsSpec_push _ _ _ _ _ (ih d (cur ++ [t]) args close rest h)

theorem hideOk_cons (t : Tok) (ts : List Tok) (h : HideOk (t :: ts)) :
    (∀ h ∈ t.hide, isFunctionLike uncheckedTable h = true) ∧ HideOk ts :=
  ⟨h t (List.mem_cons_self _ _), fun u hu => h u (List.mem_cons_of_mem _ hu)⟩

theorem hideOk_append (a b : List Tok) (ha : HideOk a) (hb : HideOk b) : HideOk (a ++ b) := by
  intro t ht
  rcases List.mem_append.mp ht with h | h
  · exact ha t h
  · exact hb t h

theorem hideOk_addHide (hs : List String) (a : List Tok)
    (hhs : ∀ h ∈ hs, isFunctionLike uncheckedTable h = true) (ha : HideOk a) :
    HideOk (addHide hs a) := by
  intro t ht h hh
  simp only [addHide, List.mem_map] at ht
  obtain ⟨u, hu, rfl⟩ := ht
  rcases List.mem_append.mp hh with h1 | h1
  · exact hhs h h1
  · exact ha u hu h h1

theorem stripMarkers_quiet (a : List Tok) (h : ∀ x ∈ a, isMarker x.text = false) :
    stripMarkers a = a := by
  unfold stripMarkers
  rw [List.filter_eq_self]
  intro x hx
  simp [h x hx]

theorem sim_nil (f : Nat) : Sim (f + 1) [] := by
  refine ⟨?_, ?_, ?_⟩
  · intro g hg
    obtain ⟨g1, rfl⟩ : ∃ g1, g = g1 + 1 := ⟨g - 1, by omega⟩
    rfl
  · simp [expand]
  · intro out h
    simp only [expand, Except.ok.injEq] at h
    subst h
    exact ⟨Nat.le_refl _, fun t ht => by simp at ht, fun t ht => by simp at ht⟩

theorem sim_emit (f : Nat) (t : Tok) (rest : List Tok) (hI : Inert uncheckedTable t)
    (hh : ∀ h ∈ t.hide, isFunctionLike uncheckedTable h = true) (ih : Sim f rest) :
    Sim (f + 1) (t :: rest) := by
  obtain ⟨i1, i2, i3⟩ := ih
  have hm : isMarker t.text = false := not_marker_of_inert t hh hI
  have es : stripMarkers (t :: rest) = t :: stripMarkers rest := by simp [stripMarkers, hm]
  rw [Sim, es, expand_cons_inert _ _ _ _ hI]
  refine ⟨?_, ?_, ?_⟩
  · intro g hg
    obtain ⟨g1, rfl⟩ : ∃ g1, g = g1 + 1 := ⟨g - 1, by omega⟩
    rw [expand_cons_inert _ _ _ _ hI, i1 g1 (by omega)]
  · cases hr : expand uncheckedTable f rest with
    | error e =>
        rw [hr] at i2
        simpa [Except.map] using i2
    | ok out => simp [Except.map]
  · intro out h
    obtain ⟨out0, h0, rfl⟩ := map_eq_ok _ _ _ h
    obtain ⟨j1, j2, j3⟩ := i3 out0 h0
    refine ⟨by simp; exact j1, ?_, ?_⟩
    · intro u hu
      rcases List.mem_cons.mp hu with rfl | hu
      · exact hh
      · exact j2 u hu
    · intro u hu
      rcases List.mem_cons.mp hu with rfl | hu
      · exact hI
      · exact j3 u hu

theorem sim_skip (f : Nat) (t : Tok) (rest : List Tok)
    (hfind : find? t.text uncheckedTable = some ⟨none, []⟩) (hfree : t.text ∉ t.hide)
    (ih : Sim f rest) : Sim (f + 1) (t :: rest) := by
  obtain ⟨i1, i2, i3⟩ := ih
  have e0 : ∀ k (r : List Tok), expand uncheckedTable (k + 1) (t :: r) = expand uncheckedTable k r := by
    intro k r
    rw [expand_object _ _ _ _ [] hfind hfree]
    simp [addHide]
  rw [Sim, e0]
  refine ⟨?_, i2, ?_⟩
  · intro g hg
    cases hm : isMarker t.text with
    | true =>
        have es : stripMarkers (t :: rest) = stripMarkers rest := by simp [stripMarkers, hm]
        rw [es, i1 g (by omega)]
    | false =>
        have es : stripMarkers (t :: rest) = t :: stripMarkers rest := by simp [stripMarkers, hm]
        obtain ⟨g1, rfl⟩ : ∃ g1, g = g1 + 1 := ⟨g - 1, by omega⟩
        rw [es, e0, i1 g1 (by omega)]
  · intro out h
    obtain ⟨j1, j2, j3⟩ := i3 out h
    exact ⟨by simp; omega, j2, j3⟩

/-- One replacement step at an invocation, for any macro table. -/
theorem expand_call (tbl : Table) (f : Nat) (t p : Tok) (rest1 : List Tok)
    (params body : List String)
    (hfind : find? t.text tbl = some ⟨some params, body⟩) (hfree : t.text ∉ t.hide)
    (hp : p.text = "(") :
    expand tbl (f + 1) (t :: p :: rest1) =
      match collectArgs 0 [] rest1 with
      | none => .error .unterminatedCall
      | some (args, close, rest2) =>
          if arityOk params args then
            match expandArgs (expand tbl f) body params args with
            | .error e => .error e
            | .ok bs =>
                expand tbl f
                  (addHide (t.text :: t.hide.filter (· ∈ close.hide)) (substitute bs body) ++ rest2)
          else .error .argCount := by
  simp [expand, hfree, hfind, hp]

theorem expand_ptr_call (k : Nat) (t p close : Tok) (X b1 b2 r : List Tok)
    (ht : t.text = "ptr") (hfree : t.text ∉ t.hide) (hp : p.text = "(")
    (hc : collectArgs 0 [] X = some ([b1, b2], close, r)) :
    expand uncheckedTable (k + 1) (t :: p :: X) =
      match expand uncheckedTable k b1 with
      | .error e => .error e
      | .ok n1 =>
          match expand uncheckedTable k b2 with
          | .error e => .error e
          | .ok t1 =>
              expand uncheckedTable k
                (addHide (t.text :: t.hide.filter (· ∈ close.hide))
                  (t1 ++ Tok.fresh "*" :: n1) ++ r) := by
  have hfind : find? t.text uncheckedTable = some ⟨some ["n", "t"], ["t", "*", "n"]⟩ := by
    rw [ht]; rfl
  rw [expand_call _ _ _ _ _ _ _ hfind hfree hp, hc]
  cases h1 : expand uncheckedTable k b1 with
  | error e => simp [arityOk, expandArgs, h1]
  | ok n1 =>
      cases h2 : expand uncheckedTable k b2 with
      | error e => simp [arityOk, expandArgs, h1, h2]
      | ok t1 => simp [arityOk, expandArgs, h1, h2, substitute, binding?]

theorem expand_forward_call (k : Nat) (t p close : Tok) (X b1 b2 b3 r : List Tok)
    (ht : forwardsToPtr t.text = true) (hfree : t.text ∉ t.hide) (hp : p.text = "(")
    (hc : collectArgs 0 [] X = some ([b1, b2, b3], close, r)) :
    expand uncheckedTable (k + 1) (t :: p :: X) =
      match expand uncheckedTable k b1 with
      | .error e => .error e
      | .ok n1 =>
          match expand uncheckedTable k b2 with
          | .error e => .error e
          | .ok t1 =>
              expand uncheckedTable k
                (addHide (t.text :: t.hide.filter (· ∈ close.hide))
                  (Tok.fresh "ptr" :: Tok.fresh "(" :: (n1 ++ Tok.fresh "," :: (t1 ++ [Tok.fresh ")"])))
                  ++ r) := by
  rw [expand_call _ _ _ _ _ _ _ (find_forward _ ht) hfree hp, hc]
  cases h1 : expand uncheckedTable k b1 with
  | error e => simp [arityOk, expandArgs, h1]
  | ok n1 =>
      cases h2 : expand uncheckedTable k b2 with
      | error e => simp [arityOk, expandArgs, h1, h2]
      | ok t1 => simp [arityOk, expandArgs, h1, h2, substitute, binding?]

theorem hideOk_of_subset (a b : List Tok) (hb : HideOk b) (h : ∀ x ∈ a, x ∈ b) : HideOk a :=
  fun x hx => hb x (h x hx)

/-- The stream that is rescanned after a replacement: the replacement `A`
(without markers) followed by the rest of the source. -/
theorem sim_rescan (f : Nat) (A rest2 : List Tok)
    (hAm : ∀ x ∈ A, isMarker x.text = false) (hS : Sim f (A ++ rest2)) :
    (∀ g, f ≤ g → expand uncheckedTable g (A ++ stripMarkers rest2) =
        expand uncheckedTable f (A ++ rest2)) := by
  have eS : stripMarkers (A ++ rest2) = A ++ stripMarkers rest2 := by
    rw [stripMarkers_append, stripMarkers_quiet A hAm]
  intro g hg
  rw [← eS]
  exact hS.1 g hg

theorem sim_ptr (f : Nat) (t p close : Tok) (rest1 a1 a2 rest2 : List Tok)
    (ht : t.text = "ptr") (hfree : t.text ∉ t.hide) (hp : p.text = "(")
    (hH : HideOk (t :: p :: rest1)) (hC : callsOnly (t :: p :: rest1) = true)
    (hlen : rest1.length + 1 < f)
    (hc : collectArgs 0 [] rest1 = some ([a1, a2], close, rest2))
    (ih : ∀ ts, HideOk ts → callsOnly ts = true → ts.length < f → Sim f ts) :
    Sim (f + 1) (t :: p :: rest1) := by
  have hfl : isFunctionLike uncheckedTable t.text = true := by rw [ht]; rfl
  obtain ⟨hHt, hH1⟩ := hideOk_cons _ _ hH
  obtain ⟨-, hH2⟩ := hideOk_cons _ _ hH1
  have hC1 : callsOnly rest1 = true := callsOnly_tail _ _ (callsOnly_tail _ _ hC)
  obtain ⟨l1, m1, m2, c1⟩ := collectArgs_spec rest1 0 [] _ _ _ hc
  obtain ⟨ca, cr⟩ := c1 (by simpa using hC1)
  simp only [List.map_cons, List.map_nil, List.sum_cons, List.sum_nil, List.length_cons,
    List.length_nil, List.nil_append] at l1
  have mem : ∀ a ∈ [a1, a2], ∀ x ∈ a, x ∈ rest1 := by
    intro a ha x hx
    rcases m1 a ha x hx with h | h
    · simp at h
    · exact h
  have s1 : Sim f a1 := ih a1 (hideOk_of_subset _ _ hH2 (mem a1 (by simp))) (ca a1 (by simp))
    (by omega)
  have s2 : Sim f a2 := ih a2 (hideOk_of_subset _ _ hH2 (mem a2 (by simp))) (ca a2 (by simp))
    (by omega)
  have hcs : collectArgs 0 [] (stripMarkers rest1) =
      some ([stripMarkers a1, stripMarkers a2], close, stripMarkers rest2) := by
    have := collectArgs_strip rest1 0 []
    rw [hc] at this
    simpa [stripMarkers] using this
  have es : stripMarkers (t :: p :: rest1) = t :: p :: stripMarkers rest1 := by
    have h1 : isMarker t.text = false := not_marker_of_functionLike _ hfl
    have h2 : isMarker p.text = false := by rw [hp]; rfl
    simp [stripMarkers, h1, h2]
  have hhs : ∀ h ∈ t.text :: t.hide.filter (· ∈ close.hide),
      isFunctionLike uncheckedTable h = true := by
    intro h hh
    rcases List.mem_cons.mp hh with rfl | hh
    · exact hfl
    · exact hHt h (List.mem_filter.mp hh).1
  rw [Sim, es, expand_ptr_call f t p close rest1 a1 a2 rest2 ht hfree hp hc]
  have Es := fun g1 => expand_ptr_call g1 t p close _ _ _ _ ht hfree hp hcs
  cases h1 : expand uncheckedTable f a1 with
  | error e =>
      refine ⟨?_, ?_, ?_⟩
      · intro g hg
        obtain ⟨g1, rfl⟩ : ∃ g1, g = g1 + 1 := ⟨g - 1, by omega⟩
        rw [Es g1, s1.1 g1 (by omega), h1]
      · have := s1.2
        rw [h1] at this
        simpa using this
      · intro out h; simp at h
  | ok n1 =>
      obtain ⟨n_len, n_hide, n_inert⟩ := s1.2.2 n1 h1
      cases h2 : expand uncheckedTable f a2 with
      | error e =>
          refine ⟨?_, ?_, ?_⟩
          · intro g hg
            obtain ⟨g1, rfl⟩ : ∃ g1, g = g1 + 1 := ⟨g - 1, by omega⟩
            rw [Es g1, s1.1 g1 (by omega), h1, s2.1 g1 (by omega), h2]
          · have := s2.2.1
            rw [h2] at this
            simpa using this
          · intro out h; simp at h
      | ok t1 =>
          obtain ⟨t_len, t_hide, t_inert⟩ := s2.2.2 t1 h2
          have hBI : ∀ x ∈ t1 ++ Tok.fresh "*" :: n1, Inert uncheckedTable x := by
            intro x hx
            simp only [List.mem_append, List.mem_cons] at hx
            rcases hx with hx | rfl | hx
            · exact t_inert x hx
            · right; rfl
            · exact n_inert x hx
          have hBH : HideOk (t1 ++ Tok.fresh "*" :: n1) := by
            intro x hx
            simp only [List.mem_append, List.mem_cons] at hx
            rcases hx with hx | rfl | hx
            · exact t_hide x hx
            · intro h hh; simp [Tok.fresh] at hh
            · exact n_hide x hx
          have hAI := inert_addHide uncheckedTable (t.text :: t.hide.filter (· ∈ close.hide)) _ hBI
          have hAH := hideOk_addHide (t.text :: t.hide.filter (· ∈ close.hide)) _ hhs hBH
          have hSlen : (addHide (t.text :: t.hide.filter (· ∈ close.hide))
              (t1 ++ Tok.fresh "*" :: n1) ++ rest2).length ≤ rest1.length := by
            simp only [List.length_append, addHide_length, List.length_cons]
            omega
          have sS : Sim f (addHide (t.text :: t.hide.filter (· ∈ close.hide))
              (t1 ++ Tok.fresh "*" :: n1) ++ rest2) := by
            apply ih
            · exact hideOk_append _ _ hAH (hideOk_of_subset _ _ hH2 m2)
            · rw [callsOnly_quiet_append _ _ (fun x hx => not_active_of_inert x (hAI x hx))]
              exact cr
            · omega
          refine ⟨?_, sS.2.1, ?_⟩
          · intro g hg
            obtain ⟨g1, rfl⟩ : ∃ g1, g = g1 + 1 := ⟨g - 1, by omega⟩
            rw [Es g1, s1.1 g1 (by omega), h1, s2.1 g1 (by omega), h2]
            exact sim_rescan f _ rest2
              (fun x hx => not_marker_of_inert x (hAH x hx) (hAI x hx)) sS g1 (by omega)
          · intro out h
            obtain ⟨j1, j2, j3⟩ := sS.2.2 out h
            refine ⟨?_, j2, j3⟩
            simp only [List.length_cons]
            omega

theorem sim_forward (f : Nat) (t p close : Tok) (rest1 a1 a2 a3 rest2 : List Tok)
    (ht : forwardsToPtr t.text = true) (hfree : t.text ∉ t.hide) (hp : p.text = "(")
    (hH : HideOk (t :: p :: rest1)) (hC : callsOnly (t :: p :: rest1) = true)
    (hlen : rest1.length + 1 < f)
    (hc : collectArgs 0 [] rest1 = some ([a1, a2, a3], close, rest2))
    (ih : ∀ ts, HideOk ts → callsOnly ts = true → ts.length < f → Sim f ts) :
    Sim (f + 1) (t :: p :: rest1) := by
  have hfl : isFunctionLike uncheckedTable t.text = true := by
    simp [isFunctionLike, find_forward _ ht]
  obtain ⟨hHt, hH1⟩ := hideOk_cons _ _ hH
  obtain ⟨-, hH2⟩ := hideOk_cons _ _ hH1
  have hC1 : callsOnly rest1 = true := callsOnly_tail _ _ (callsOnly_tail _ _ hC)
  obtain ⟨l1, m1, m2, c1⟩ := collectArgs_spec rest1 0 [] _ _ _ hc
  obtain ⟨ca, cr⟩ := c1 (by simpa using hC1)
  simp only [List.map_cons, List.map_nil, List.sum_cons, List.sum_nil, List.length_cons,
    List.length_nil, List.nil_append] at l1
  have mem : ∀ a ∈ [a1, a2, a3], ∀ x ∈ a, x ∈ rest1 := by
    intro a ha x hx
    rcases m1 a ha x hx with h | h
    · simp at h
    · exact h
  have s1 : Sim f a1 := ih a1 (hideOk_of_subset _ _ hH2 (mem a1 (by simp))) (ca a1 (by simp))
    (by omega)
  have s2 : Sim f a2 := ih a2 (hideOk_of_subset _ _ hH2 (mem a2 (by simp))) (ca a2 (by simp))
    (by omega)
  have hcs : collectArgs 0 [] (stripMarkers rest1) =
      some ([stripMarkers a1, stripMarkers a2, stripMarkers a3], close, stripMarkers rest2) := by
    have := collectArgs_strip rest1 0 []
    rw [hc] at this
    simpa [stripMarkers] using this
  have es : stripMarkers (t :: p :: rest1) = t :: p :: stripMarkers rest1 := by
    have h1 : isMarker t.text = false := not_marker_of_functionLike _ hfl
    have h2 : isMarker p.text = false := by rw [hp]; rfl
    simp [stripMarkers, h1, h2]
  have hhs : ∀ h ∈ t.text :: t.hide.filter (· ∈ close.hide),
      isFunctionLike uncheckedTable h = true := by
    intro h hh
    rcases List.mem_cons.mp hh with rfl | hh
    · exact hfl
    · exact hHt h (List.mem_filter.mp hh).1
  rw [Sim, es, expand_forward_call f t p close rest1 a1 a2 a3 rest2 ht hfree hp hc]
  have Es := fun g1 => expand_forward_call g1 t p close _ _ _ _ _ ht hfree hp hcs
  cases h1 : expand uncheckedTable f a1 with
  | error e =>
      refine ⟨?_, ?_, ?_⟩
      · intro g hg
        obtain ⟨g1, rfl⟩ : ∃ g1, g = g1 + 1 := ⟨g - 1, by omega⟩
        rw [Es g1, s1.1 g1 (by omega), h1]
      · have := s1.2
        rw [h1] at this
        simpa using this
      · intro out h; simp at h
  | ok n1 =>
      obtain ⟨n_len, n_hide, n_inert⟩ := s1.2.2 n1 h1
      cases h2 : expand uncheckedTable f a2 with
      | error e =>
          refine ⟨?_, ?_, ?_⟩
          · intro g hg
            obtain ⟨g1, rfl⟩ : ∃ g1, g = g1 + 1 := ⟨g - 1, by omega⟩
            rw [Es g1, s1.1 g1 (by omega), h1, s2.1 g1 (by omega), h2]
          · have := s2.2.1
            rw [h2] at this
            simpa using this
          · intro out h; simp at h
      | ok t1 =>
          obtain ⟨t_len, t_hide, t_inert⟩ := s2.2.2 t1 h2
          have hBI : ∀ x ∈ Tok.fresh "(" :: (n1 ++ Tok.fresh "," :: (t1 ++ [Tok.fresh ")"])),
              Inert uncheckedTable x := by
            intro x hx
            simp only [List.mem_append, List.mem_cons, List.mem_singleton, List.not_mem_nil,
              or_false] at hx
            rcases hx with rfl | hx | rfl | hx | rfl
            · right; rfl
            · exact n_inert x hx
            · right; rfl
            · exact t_inert x hx
            · right; rfl
          have hBH : HideOk (Tok.fresh "ptr" :: Tok.fresh "(" ::
              (n1 ++ Tok.fresh "," :: (t1 ++ [Tok.fresh ")"]))) := by
            intro x hx
            simp only [List.mem_append, List.mem_cons, List.mem_singleton, List.not_mem_nil,
              or_false] at hx
            rcases hx with rfl | rfl | hx | rfl | hx | rfl
            · intro h hh; simp [Tok.fresh] at hh
            · intro h hh; simp [Tok.fresh] at hh
            · exact n_hide x hx
            · intro h hh; simp [Tok.fresh] at hh
            · exact t_hide x hx
            · intro h hh; simp [Tok.fresh] at hh
          have hAI := inert_addHide uncheckedTable (t.text :: t.hide.filter (· ∈ close.hide)) _ hBI
          have hAH := hideOk_addHide (t.text :: t.hide.filter (· ∈ close.hide)) _ hhs hBH
          have hAm : ∀ x ∈ addHide (t.text :: t.hide.filter (· ∈ close.hide))
              (Tok.fresh "ptr" :: Tok.fresh "(" :: (n1 ++ Tok.fresh "," :: (t1 ++ [Tok.fresh ")"]))),
              isMarker x.text = false := by
            intro x hx
            have hx' := hx
            simp only [addHide, List.map_cons, List.mem_cons] at hx
            rcases hx with rfl | hx
            · rfl
            · exact not_marker_of_inert x (hAH x hx') (hAI x (by simpa [addHide] using hx))
          have sS : Sim f (addHide (t.text :: t.hide.filter (· ∈ close.hide))
              (Tok.fresh "ptr" :: Tok.fresh "(" :: (n1 ++ Tok.fresh "," :: (t1 ++ [Tok.fresh ")"])))
              ++ rest2) := by
            apply ih
            · exact hideOk_append _ _ hAH (hideOk_of_subset _ _ hH2 m2)
            · have e1 : addHide (t.text :: t.hide.filter (· ∈ close.hide))
                  (Tok.fresh "ptr" :: Tok.fresh "(" ::
                    (n1 ++ Tok.fresh "," :: (t1 ++ [Tok.fresh ")"]))) ++ rest2 =
                  ⟨"ptr", (t.text :: t.hide.filter (· ∈ close.hide)) ++ []⟩ ::
                    (addHide (t.text :: t.hide.filter (· ∈ close.hide))
                      (Tok.fresh "(" :: (n1 ++ Tok.fresh "," :: (t1 ++ [Tok.fresh ")"]))) ++ rest2) := by
                simp [addHide, Tok.fresh]
              rw [e1, callsOnly,
                callsOnly_quiet_append _ _ (fun x hx => not_active_of_inert x (hAI x hx)), cr]
              simp [addHide, nextIsParen, Tok.fresh]
            · simp only [List.length_append, addHide_length, List.length_cons, List.length_nil]
              omega
          refine ⟨?_, sS.2.1, ?_⟩
          · intro g hg
            obtain ⟨g1, rfl⟩ : ∃ g1, g = g1 + 1 := ⟨g - 1, by omega⟩
            rw [Es g1, s1.1 g1 (by omega), h1, s2.1 g1 (by omega), h2]
            exact sim_rescan f _ rest2 hAm sS g1 (by omega)
          · intro out h
            obtain ⟨j1, j2, j3⟩ := sS.2.2 out h
            refine ⟨?_, j2, j3⟩
            simp only [List.length_append, addHide_length, List.length_cons,
              List.length_nil] at j1 ⊢
            omega

theorem sim_failed_call (f : Nat) (t p : Tok) (rest1 : List Tok) (params body : List String)
    (hfind : find? t.text uncheckedTable = some ⟨some params, body⟩) (hfree : t.text ∉ t.hide)
    (hp : p.text = "(") (hpar : params ≠ [])
    (hfail : ∀ args close rest2, collectArgs 0 [] rest1 = some (args, close, rest2) →
      arityOk params args = false) :
    Sim (f + 1) (t :: p :: rest1) := by
  have hfl : isFunctionLike uncheckedTable t.text = true := by simp [isFunctionLike, hfind]
  have es : stripMarkers (t :: p :: rest1) = t :: p :: stripMarkers rest1 := by
    have h1 : isMarker t.text = false := not_marker_of_functionLike _ hfl
    have h2 : isMarker p.text = false := by rw [hp]; rfl
    simp [stripMarkers, h1, h2]
  have hcs := collectArgs_strip rest1 0 []
  have e0 : stripMarkers [] = [] := rfl
  rw [e0] at hcs
  rw [Sim, es, expand_call _ f _ _ _ _ _ hfind hfree hp]
  cases hc : collectArgs 0 [] rest1 with
  | none =>
      rw [hc] at hcs
      refine ⟨?_, by simp, by intro out h; simp at h⟩
      intro g hg
      obtain ⟨g1, rfl⟩ : ∃ g1, g = g1 + 1 := ⟨g - 1, by omega⟩
      rw [expand_call _ g1 _ _ _ _ _ hfind hfree hp, hcs]
  | some r =>
      obtain ⟨args, close, rest2⟩ := r
      rw [hc] at hcs
      have ha := hfail args close rest2 hc
      have ha' : arityOk params (args.map stripMarkers) = false := by
        cases params with
        | nil => exact absurd rfl hpar
        | cons q qs => simpa [arityOk] using ha
      refine ⟨?_, by simp [ha], by intro out h; simp [ha] at h⟩
      intro g hg
      obtain ⟨g1, rfl⟩ : ∃ g1, g = g1 + 1 := ⟨g - 1, by omega⟩
      rw [expand_call _ g1 _ _ _ _ _ hfind hfree hp, hcs]
      simp [ha, ha']

/-- Deleting the markers from a token sequence in which every replaceable
function-like macro name is directly followed by `(` does not change the
result of macro replacement, and fuel above the length always suffices. -/
theorem strip_sim :
    ∀ (f : Nat) (ts : List Tok), HideOk ts → callsOnly ts = true → ts.length < f → Sim f ts := by
  intro f
  induction f with
  | zero => intro ts _ _ h; omega
  | succ f ih =>
      intro ts hH hC hlen
      cases ts with
      | nil => exact sim_nil f
      | cons t rest =>
          obtain ⟨hHt, hHr⟩ := hideOk_cons _ _ hH
          have hlr : rest.length < f := by simpa using hlen
          have sr : Sim f rest := ih rest hHr (callsOnly_tail _ _ hC) hlr
          by_cases hh : t.text ∈ t.hide
          · exact sim_emit f t rest (Or.inl hh) hHt sr
          · cases hfind : find? t.text uncheckedTable with
            | none => exact sim_emit f t rest (Or.inr hfind) hHt sr
            | some d =>
                obtain ⟨params, body⟩ := d
                cases params with
                | none =>
                    have hb := unchecked_object_empty _ body hfind
                    subst hb
                    exact sim_skip f t rest hfind hh sr
                | some ps =>
                    have hact : isActive t = true := by simp [isActive, isFunctionLike, hfind, hh]
                    obtain ⟨p, rest1, rfl, hp⟩ := callsOnly_head t rest hC hact
                    have hl1 : rest1.length + 1 < f := by
                      simp only [List.length_cons] at hlen
                      omega
                    rcases functionLike_unchecked _ ps body hfind with
                      ⟨ht, rfl, rfl⟩ | ⟨ht, rfl, rfl⟩
                    · by_cases hx : ∃ a1 a2 close rest2,
                          collectArgs 0 [] rest1 = some ([a1, a2], close, rest2)
                      · obtain ⟨a1, a2, close, rest2, hc⟩ := hx
                        exact sim_ptr f t p close rest1 a1 a2 rest2 ht hh hp hH hC hl1 hc ih
                      · apply sim_failed_call f t p rest1 _ _ hfind hh hp (by simp)
                        intro args close rest2 hc
                        cases harity : arityOk ["n", "t"] args with
                        | false => rfl
                        | true =>
                            exfalso
                            apply hx
                            simp only [arityOk, List.length_cons, List.length_nil,
                              List.isEmpty_cons, Bool.false_and, Bool.or_false, beq_iff_eq] at harity
                            match args, harity with
                            | [a1, a2], _ => exact ⟨a1, a2, close, rest2, hc⟩
                    · by_cases hx : ∃ a1 a2 a3 close rest2,
                          collectArgs 0 [] rest1 = some ([a1, a2, a3], close, rest2)
                      · obtain ⟨a1, a2, a3, close, rest2, hc⟩ := hx
                        exact sim_forward f t p close rest1 a1 a2 a3 rest2 ht hh hp hH hC hl1 hc ih
                      · apply sim_failed_call f t p rest1 _ _ hfind hh hp (by simp)
                        intro args close rest2 hc
                        cases harity : arityOk ["n", "t", "e"] args with
                        | false => rfl
                        | true =>
                            exfalso
                            apply hx
                            simp only [arityOk, List.length_cons, List.length_nil,
                              List.isEmpty_cons, Bool.false_and, Bool.or_false, beq_iff_eq] at harity
                            match args, harity with
                            | [a1, a2, a3], _ => exact ⟨a1, a2, a3, close, rest2, hc⟩

/-! ## Main results -/

/-- C1 (fails on the code): in unchecked mode `dynamic_check` is an object-like
macro with an empty replacement list, so only the name is deleted and the
parenthesised argument stays in the program.  The statement
`dynamic_check(1/0);` expands to `(1/0);`, never to the empty statement `;`,
and the expression statement that is left evaluates the division. -/
theorem dynamic_check_unchecked_keeps_argument :
    preprocess uncheckedTable 8 ["dynamic_check", "(", "1", "/", "0", ")", ";"] =
        .ok ["(", "1", "/", "0", ")", ";"] ∧
      (∀ fuel, preprocess uncheckedTable fuel ["dynamic_check", "(", "1", "/", "0", ")", ";"] ≠
        .ok [";"]) ∧
      runStatement ["(", "1", "/", "0", ")", ";"] = some .divisionError ∧
      runStatement [";"] = some .completes ∧
      (∀ (c rest : List String) (fuel : Nat),
        preprocess uncheckedTable (fuel + 1) (invoke "dynamic_check" [c] ++ rest) =
          preprocess uncheckedTable fuel ("(" :: (c ++ ")" :: rest))) := by
  refine ⟨rfl, ?_, rfl, rfl, ?_⟩
  · intro fuel h
    have := preprocess_unique uncheckedTable 8 fuel
      ["dynamic_check", "(", "1", "/", "0", ")", ";"] ["(", "1", "/", "0", ")", ";"] [";"] rfl h
    simp at this
  · intro c rest fuel
    have : invoke "dynamic_check" [c] ++ rest = "dynamic_check" :: ("(" :: (c ++ ")" :: rest)) := by
      simp [invoke, joinArgs]
    rw [this, marker_unchecked "dynamic_check" rfl]

/-- C2: in unchecked mode the expansion of `array_ptr(n, t, e)` and of
`nt_array_ptr(n, t, e)` does not depend on the bound expression: for every
identifier `n`, argument `t` and any two arguments `e1`, `e2`, in any context
`rest` and with any fuel, preprocessing gives the same result; and when `n` and
`t` contain no macro names that result is `t * n`, which has no token from the
bound expression. -/
theorem unchecked_bound_expression_ignored (n : String) (t e1 e2 rest : List String)
    (hn : isIdentifier n = true) (ht : isArg t = true)
    (he1 : isArg e1 = true) (he2 : isArg e2 = true) (fuel : Nat) :
    preprocess uncheckedTable fuel (invoke "array_ptr" [[n], t, e1] ++ rest) =
        preprocess uncheckedTable fuel (invoke "array_ptr" [[n], t, e2] ++ rest) ∧
      preprocess uncheckedTable fuel (invoke "nt_array_ptr" [[n], t, e1] ++ rest) =
        preprocess uncheckedTable fuel (invoke "nt_array_ptr" [[n], t, e2] ++ rest) ∧
      (isDefined n uncheckedTable = false → macroFree uncheckedTable t = true →
        t.length + 5 ≤ fuel →
          preprocess uncheckedTable fuel (invoke "array_ptr" [[n], t, e1]) = .ok (t ++ ["*", n]) ∧
          preprocess uncheckedTable fuel (invoke "nt_array_ptr" [[n], t, e1]) =
            .ok (t ++ ["*", n])) := by
  have hnA : isArg ([Tok.fresh n].map Tok.text) = true := by
    simpa [Tok.fresh] using isArg_single n hn
  have htA : isArg ((t.map Tok.fresh).map Tok.text) = true := by rw [map_fresh_text]; exact ht
  have same : ∀ name, forwardsToPtr name = true →
      preprocess uncheckedTable fuel (invoke name [[n], t, e1] ++ rest) =
        preprocess uncheckedTable fuel (invoke name [[n], t, e2] ++ rest) := by
    intro name hname
    cases fuel with
    | zero => rfl
    | succ f =>
        have s1 := forward_unchecked_step f (Tok.fresh name) (Tok.fresh "(") (Tok.fresh ",")
          (Tok.fresh ",") (Tok.fresh ")") [Tok.fresh n] (t.map Tok.fresh) (e1.map Tok.fresh)
          (rest.map Tok.fresh) hname (by simp [Tok.fresh]) rfl rfl rfl rfl hnA htA
          (by rw [map_fresh_text]; exact he1)
        have s2 := forward_unchecked_step f (Tok.fresh name) (Tok.fresh "(") (Tok.fresh ",")
          (Tok.fresh ",") (Tok.fresh ")") [Tok.fresh n] (t.map Tok.fresh) (e2.map Tok.fresh)
          (rest.map Tok.fresh) hname (by simp [Tok.fresh]) rfl rfl rfl rfl hnA htA
          (by rw [map_fresh_text]; exact he2)
        simp only [List.singleton_append] at s1 s2
        simp only [preprocess, invoke, joinArgs, List.map_cons, List.map_append, List.cons_append,
          List.nil_append, List.append_assoc, List.map_nil, List.singleton_append]
        rw [s1, s2]
  refine ⟨same _ rfl, same _ rfl, ?_⟩
  intro hnF htF hf
  exact ⟨preprocess_alone _ _ _ (t.length + 4)
      (fun f => forward_unchecked_source f "array_ptr" n t e1 [] rfl hn hnF ht htF he1) fuel hf,
    preprocess_alone _ _ _ (t.length + 4)
      (fun f => forward_unchecked_source f "nt_array_ptr" n t e1 [] rfl hn hnF ht htF he1) fuel hf⟩

/-- C2, at `array_ptr(buf, char, len)` against `array_ptr(buf, char, 1/0)`. -/
theorem unchecked_bound_expression_ignored_witness :
    preprocess uncheckedTable 9 (invoke "array_ptr" [["buf"], ["char"], ["len"]] ++ [";"]) =
        preprocess uncheckedTable 9 (invoke "array_ptr" [["buf"], ["char"], ["1", "/", "0"]] ++ [";"]) ∧
      preprocess uncheckedTable 9 (invoke "nt_array_ptr" [["buf"], ["char"], ["len"]] ++ [";"]) =
        preprocess uncheckedTable 9
          (invoke "nt_array_ptr" [["buf"], ["char"], ["1", "/", "0"]] ++ [";"]) ∧
      preprocess uncheckedTable 9 (invoke "array_ptr" [["buf"], ["char"], ["len"]]) =
        .ok ["char", "*", "buf"] ∧
      preprocess uncheckedTable 9 (invoke "nt_array_ptr" [["buf"], ["char"], ["len"]]) =
        .ok ["char", "*", "buf"] :=
  have h := unchecked_bound_expression_ignored "buf" ["char"] ["len"] ["1", "/", "0"] [";"]
    (by decide) (by decide) (by decide) (by decide) 9
  ⟨h.1, h.2.1, h.2.2 (by decide) (by decide) (by decide)⟩

/-- C3, as stated, fails: a function-like macro name is an invocation only if
the next token is `(`, and a marker between the name and the parenthesis is
such a next token.  In unchecked mode `ptr checked ( x , int )` is preprocessed
to `ptr ( x , int )`, with `ptr` left unexpanded, whereas the same source with
the marker deleted is preprocessed to `int * x`. -/
theorem marker_deletion_counterexample :
    preprocess uncheckedTable 8 ["ptr", "checked", "(", "x", ",", "int", ")"] =
        .ok ["ptr", "(", "x", ",", "int", ")"] ∧
      deleteMarkers ["ptr", "checked", "(", "x", ",", "int", ")"] =
        ["ptr", "(", "x", ",", "int", ")"] ∧
      preprocess uncheckedTable 8 (deleteMarkers ["ptr", "checked", "(", "x", ",", "int", ")"]) =
        .ok ["int", "*", "x"] ∧
      ¬ ∀ (src : List String) (fuel : Nat), src.length < fuel →
          preprocess uncheckedTable fuel src = preprocess uncheckedTable fuel (deleteMarkers src) := by
  refine ⟨rfl, rfl, rfl, ?_⟩
  intro h
  have h1 := h ["ptr", "checked", "(", "x", ",", "int", ")"] 8 (by decide)
  have h2 : preprocess uncheckedTable 8 ["ptr", "checked", "(", "x", ",", "int", ")"] =
      .ok ["ptr", "(", "x", ",", "int", ")"] := rfl
  have h3 : preprocess uncheckedTable 8
      (deleteMarkers ["ptr", "checked", "(", "x", ",", "int", ")"]) = .ok ["int", "*", "x"] := rfl
  rw [h2, h3] at h1
  simp at h1

/-- C3, amended: in unchecked mode each of `checked`, `unchecked` and
`nt_checked` expands to the empty token sequence, and for every source `src`
in which every occurrence of a function-like macro name of the header (`ptr`,
`array_ptr`, `nt_array_ptr`) is directly followed by `(`, preprocessing `src`
gives exactly the result of preprocessing `src` with every occurrence of the
three markers deleted; fuel above the length of `src` always suffices, and if
`src` has no invocation at all the result is `src` without the names of the
object-like macros. -/
theorem markers_deleted_unchecked (src : List String) (hsrc : invocationsOnly src = true)
    (fuel : Nat) (hf : src.length < fuel) :
    preprocess uncheckedTable (fuel + 1) ["checked"] = .ok [] ∧
      preprocess uncheckedTable (fuel + 1) ["unchecked"] = .ok [] ∧
      preprocess uncheckedTable (fuel + 1) ["nt_checked"] = .ok [] ∧
      preprocess uncheckedTable fuel (deleteMarkers src) = preprocess uncheckedTable fuel src ∧
      preprocess uncheckedTable fuel src ≠ .error .outOfFuel ∧
      ((∀ s ∈ src, isFunctionLike uncheckedTable s = false) →
        preprocess uncheckedTable fuel src =
          .ok (src.filter fun s => !isDefined s uncheckedTable)) := by
  have hnil : preprocess uncheckedTable fuel [] = .ok [] :=
    preprocess_macroFree uncheckedTable [] rfl fuel (by simp; omega)
  have hsim : Sim fuel (src.map Tok.fresh) :=
    strip_sim fuel _ (hideOk_fresh src) (by rw [callsOnly_fresh]; exact hsrc) (by simpa using hf)
  refine ⟨by rw [marker_unchecked "checked" rfl, hnil],
    by rw [marker_unchecked "unchecked" rfl, hnil],
    by rw [marker_unchecked "nt_checked" rfl, hnil], ?_, ?_, ?_⟩
  · unfold preprocess
    rw [← stripMarkers_fresh, hsim.1 fuel (Nat.le_refl _)]
  · unfold preprocess
    cases hr : expand uncheckedTable fuel (src.map Tok.fresh) with
    | error e =>
        have := hsim.2.1
        rw [hr] at this
        simpa [Except.map] using this
    | ok out => simp [Except.map]
  · intro hfree
    unfold preprocess
    rw [expand_objects_unchecked src hfree fuel hf, map_ok, map_fresh_text]

/-- C3 amended, at
`checked ptr ( x , int ) ; nt_checked array_ptr ( s , char checked , count ( 8 ) ) ; unchecked`
and, for the last part, at `checked int x ; nt_checked char s [ 8 ] ; unchecked`. -/
theorem markers_deleted_unchecked_witness :
    preprocess uncheckedTable 25 ["checked"] = .ok [] ∧
      preprocess uncheckedTable 25 ["unchecked"] = .ok [] ∧
      preprocess uncheckedTable 25 ["nt_checked"] = .ok [] ∧
      preprocess uncheckedTable 24
          (deleteMarkers ["checked", "ptr", "(", "x", ",", "int", ")", ";", "nt_checked",
            "array_ptr", "(", "s", ",", "char", "checked", ",", "count", "(", "8", ")", ")", ";",
            "unchecked"]) =
        preprocess uncheckedTable 24 ["checked", "ptr", "(", "x", ",", "int", ")", ";", "nt_checked",
            "array_ptr", "(", "s", ",", "char", "checked", ",", "count", "(", "8", ")", ")", ";",
            "unchecked"] ∧
      preprocess uncheckedTable 24 ["checked", "ptr", "(", "x", ",", "int", ")", ";", "nt_checked",
            "array_ptr", "(", "s", ",", "char", "checked", ",", "count", "(", "8", ")", ")", ";",
            "unchecked"] ≠ .error .outOfFuel ∧
      preprocess uncheckedTable 24 ["checked", "ptr", "(", "x", ",", "int", ")", ";", "nt_checked",
            "array_ptr", "(", "s", ",", "char", "checked", ",", "count", "(", "8", ")", ")", ";",
            "unchecked"] = .ok ["int", "*", "x", ";", "char", "*", "s", ";"] ∧
      preprocess uncheckedTable 13
          ["checked", "int", "x", ";", "nt_checked", "char", "s", "[", "8", "]", ";", "unchecked"] =
        .ok ["int", "x", ";", "char", "s", "[", "8", "]", ";"] :=
  have h := markers_deleted_unchecked ["checked", "ptr", "(", "x", ",", "int", ")", ";",
    "nt_checked", "array_ptr", "(", "s", ",", "char", "checked", ",", "count", "(", "8", ")", ")",
    ";", "unchecked"] (by decide) 24 (by decide)
  ⟨h.1, h.2.1, h.2.2.1, h.2.2.2.1, h.2.2.2.2.1, rfl,
    (markers_deleted_unchecked
      ["checked", "int", "x", ";", "nt_checked", "char", "s", "[", "8", "]", ";", "unchecked"]
      (by decide) 13 (by decide)).2.2.2.2.2 (by decide)⟩

/-- C4: in unchecked mode, for every identifier `n` that is not itself a macro
name, every argument `t` without macro names and every argument `e`:
`ptr(n, t)` is preprocessed to `t * n`, and `array_ptr(n, t, e)` and
`nt_array_ptr(n, t, e)` are preprocessed to the same tokens (`ptr`, although
defined after them in the header, is expanded on rescanning); the result
contains no macro name. -/
theorem plain_pointer_expansion (n : String) (t e : List String)
    (hn : isIdentifier n = true) (hnF : isDefined n uncheckedTable = false)
    (ht : isArg t = true) (htF : macroFree uncheckedTable t = true) (he : isArg e = true)
    (fuel : Nat) (hf : t.length + 5 ≤ fuel) :
    preprocess uncheckedTable fuel (invoke "ptr" [[n], t]) = .ok (t ++ ["*", n]) ∧
      preprocess uncheckedTable fuel (invoke "array_ptr" [[n], t, e]) =
        preprocess uncheckedTable fuel (invoke "ptr" [[n], t]) ∧
      preprocess uncheckedTable fuel (invoke "nt_array_ptr" [[n], t, e]) =
        preprocess uncheckedTable fuel (invoke "ptr" [[n], t]) ∧
      macroFree uncheckedTable (t ++ ["*", n]) = true := by
  have h1 := preprocess_alone _ _ _ (t.length + 3)
    (fun f => ptr_unchecked_source f n t [] hn hnF ht htF) fuel (by omega)
  have h2 := preprocess_alone _ _ _ (t.length + 4)
    (fun f => forward_unchecked_source f "array_ptr" n t e [] rfl hn hnF ht htF he) fuel hf
  have h3 := preprocess_alone _ _ _ (t.length + 4)
    (fun f => forward_unchecked_source f "nt_array_ptr" n t e [] rfl hn hnF ht htF he) fuel hf
  refine ⟨h1, by rw [h1, h2], by rw [h1, h3], ?_⟩
  have := macroFree_result uncheckedTable n t ["*"] hnF htF rfl
  simpa using this

/-- C4, at `ptr(p, unsigned char)` and `array_ptr(p, unsigned char, count(8))`. -/
theorem plain_pointer_expansion_witness :
    preprocess uncheckedTable 7 (invoke "ptr" [["p"], ["unsigned", "char"]]) =
        .ok (["unsigned", "char"] ++ ["*", "p"]) ∧
      preprocess uncheckedTable 7
          (invoke "array_ptr" [["p"], ["unsigned", "char"], ["count", "(", "8", ")"]]) =
        preprocess uncheckedTable 7 (invoke "ptr" [["p"], ["unsigned", "char"]]) ∧
      preprocess uncheckedTable 7
          (invoke "nt_array_ptr" [["p"], ["unsigned", "char"], ["count", "(", "8", ")"]]) =
        preprocess uncheckedTable 7 (invoke "ptr" [["p"], ["unsigned", "char"]]) ∧
      macroFree uncheckedTable (["unsigned", "char"] ++ ["*", "p"]) = true :=
  plain_pointer_expansion "p" ["unsigned", "char"] ["count", "(", "8", ")"]
    (by decide) (by decide) (by decide) (by decide) (by decide) 7 (by decide)

/-- C5 (fails on the code): for the type names `int (*)(void)` and `int [4]`,
both accepted in the checked form `_Ptr<t> n`, the unchecked expansion of
`ptr(n, t)` (and of `array_ptr`, `nt_array_ptr`) is `t * n`, which is not a
declaration in C; the declarations of a pointer to these types are
`int (**f)(void)` and `int (*a)[4]`.  For a type name without declarator part,
such as `unsigned char`, the expansion is the declaration of a pointer to it. -/
theorem derived_type_unchecked_not_a_declaration :
    parseTypeName ["int", "(", "*", ")", "(", "void", ")"] =
        some (.pointer (.function ["void"] (.base ["int"]))) ∧
      preprocess checkedTable 14 (invoke "ptr" [["f"], ["int", "(", "*", ")", "(", "void", ")"]]) =
        .ok ["_Ptr", "<", "int", "(", "*", ")", "(", "void", ")", ">", "f"] ∧
      preprocess uncheckedTable 14 (invoke "ptr" [["f"], ["int", "(", "*", ")", "(", "void", ")"]]) =
        .ok ["int", "(", "*", ")", "(", "void", ")", "*", "f"] ∧
      preprocess uncheckedTable 14
          (invoke "array_ptr" [["f"], ["int", "(", "*", ")", "(", "void", ")"], ["count", "(", "1", ")"]]) =
        .ok ["int", "(", "*", ")", "(", "void", ")", "*", "f"] ∧
      parseDeclaration ["int", "(", "*", ")", "(", "void", ")", "*", "f"] = none ∧
      parseDeclaration ["int", "(", "*", "*", "f", ")", "(", "void", ")"] =
        some ("f", .pointer (.pointer (.function ["void"] (.base ["int"])))) ∧
      parseTypeName ["int", "[", "4", "]"] = some (.array ["4"] (.base ["int"])) ∧
      preprocess uncheckedTable 14 (invoke "ptr" [["a"], ["int", "[", "4", "]"]]) =
        .ok ["int", "[", "4", "]", "*", "a"] ∧
      parseDeclaration ["int", "[", "4", "]", "*", "a"] = none ∧
      parseDeclaration ["int", "(", "*", "a", ")", "[", "4", "]"] =
        some ("a", .pointer (.array ["4"] (.base ["int"]))) ∧
      parseTypeName ["unsigned", "char"] = some (.base ["unsigned", "char"]) ∧
      preprocess uncheckedTable 14 (invoke "ptr" [["p"], ["unsigned", "char"]]) =
        .ok ["unsigned", "char", "*", "p"] ∧
      parseDeclaration ["unsigned", "char", "*", "p"] =
        some ("p", .pointer (.base ["unsigned", "char"])) := by
  refine ⟨rfl, rfl, rfl, rfl, rfl, rfl, rfl, rfl, rfl, rfl, rfl, rfl, rfl⟩

/-- C6 (fails on the code): the symbol tested by the header is `USE_CHECKEDC`,
not the `ENABLE_CHECKEDC` of the file documentation.  With only
`ENABLE_CHECKEDC` defined all seven macros get their plain definitions and
`ptr(x, int)` is `int * x`; with only `USE_CHECKEDC` defined they get the
Checked C forms and `ptr(x, int)` is `_Ptr<int> x`. -/
theorem enable_symbol_is_not_the_switch :
    isDefined "ENABLE_CHECKEDC" enableCfg = true ∧
      (∀ m ∈ headerMacros, find? m (includeHeader enableCfg) = find? m uncheckedDefs) ∧
      preprocess (includeHeader enableCfg) 6 (invoke "ptr" [["x"], ["int"]]) =
        .ok ["int", "*", "x"] ∧
      preprocess (includeHeader enableCfg) 3 ["checked"] = .ok [] ∧
      isDefined "ENABLE_CHECKEDC" checkedCfg = false ∧
      (∀ m ∈ headerMacros, find? m (includeHeader checkedCfg) = find? m checkedDefs) ∧
      preprocess (includeHeader checkedCfg) 8 (invoke "ptr" [["x"], ["int"]]) =
        .ok ["_Ptr", "<", "int", ">", "x"] := by
  refine ⟨rfl, by decide, rfl, rfl, rfl, by decide, rfl⟩

/-- C7: there is one mode switch.  For every build configuration `cfg` the
seven conditional blocks give all seven macros their checked definition if
`USE_CHECKEDC` is defined in `cfg` and all seven their unchecked definition if
it is not, whatever its value and whatever else `cfg` defines; and on the
first inclusion of the header (include guard `CHECKEDC_H` not yet defined)
these are the definitions the header provides. -/
theorem single_mode_switch (cfg : Table) :
    (isDefined "USE_CHECKEDC" cfg = true →
        ∀ m ∈ headerMacros, find? m (defineMacros cfg) = find? m checkedDefs) ∧
      (isDefined "USE_CHECKEDC" cfg = false →
        ∀ m ∈ headerMacros, find? m (defineMacros cfg) = find? m uncheckedDefs) ∧
      (isDefined "CHECKEDC_H" cfg = false →
        ∀ m ∈ headerMacros, find? m (includeHeader cfg) = find? m (defineMacros cfg)) ∧
      ((∀ m ∈ headerMacros, find? m (defineMacros cfg) = find? m checkedDefs) ∨
        (∀ m ∈ headerMacros, find? m (defineMacros cfg) = find? m uncheckedDefs)) ∧
      (∀ m ∈ headerMacros, find? m checkedDefs ≠ find? m uncheckedDefs) := by
  have hc : ∀ m ∈ headerMacros, (find? m checkedDefs).isSome = true := by decide
  have hu : ∀ m ∈ headerMacros, (find? m uncheckedDefs).isSome = true := by decide
  have key : ∀ c : Table, ∀ m ∈ headerMacros, find? m (defineMacros c) =
      find? m (if isDefined "USE_CHECKEDC" c then checkedDefs else uncheckedDefs) := by
    intro c m hm
    rw [defineMacros_eq]
    cases hsw : isDefined "USE_CHECKEDC" c
    · simpa using find_append_header uncheckedDefs c m (hu m hm)
    · simpa using find_append_header checkedDefs c m (hc m hm)
  have h1 : isDefined "USE_CHECKEDC" cfg = true →
      ∀ m ∈ headerMacros, find? m (defineMacros cfg) = find? m checkedDefs := by
    intro h m hm
    rw [key cfg m hm, h]; rfl
  have h2 : isDefined "USE_CHECKEDC" cfg = false →
      ∀ m ∈ headerMacros, find? m (defineMacros cfg) = find? m uncheckedDefs := by
    intro h m hm
    rw [key cfg m hm, h]; rfl
  refine ⟨h1, h2, ?_, ?_, by decide⟩
  rotate_left
  · cases hsw : isDefined "USE_CHECKEDC" cfg
    · exact Or.inr (h2 hsw)
    · exact Or.inl (h1 hsw)
  · intro h m hm
    have : isDefined "USE_CHECKEDC" (("CHECKEDC_H", (⟨none, []⟩ : MacroDef)) :: cfg) =
        isDefined "USE_CHECKEDC" cfg := by
      simp [isDefined, find?]
    rw [includeHeader_eq, h, key cfg m hm]
    simp only [Bool.false_eq_true, if_false]
    rw [key _ m hm, this]

/-- C7, at `-DUSE_CHECKEDC=0 -DDEVELHELP` (checked: only definedness counts)
and at `-DENABLE_CHECKEDC` (unchecked). -/
theorem single_mode_switch_witness :
    (∀ m ∈ headerMacros,
        find? m (defineMacros [("USE_CHECKEDC", ⟨none, ["0"]⟩), ("DEVELHELP", ⟨none, ["1"]⟩)]) =
          find? m checkedDefs) ∧
      (∀ m ∈ headerMacros, find? m (defineMacros enableCfg) = find? m uncheckedDefs) ∧
      (∀ m ∈ headerMacros,
        find? m (includeHeader enableCfg) = find? m (defineMacros enableCfg)) :=
  ⟨(single_mode_switch [("USE_CHECKEDC", ⟨none, ["0"]⟩), ("DEVELHELP", ⟨none, ["1"]⟩)]).1 rfl,
    (single_mode_switch enableCfg).2.1 rfl, (single_mode_switch enableCfg).2.2.1 rfl⟩

/-- C8: in checked mode, for every identifier `n` that is not itself a macro
name and all arguments `t`, `e` without macro names, `ptr(n, t)` is
preprocessed to `_Ptr < t > n`, `array_ptr(n, t, e)` to
`_Array_ptr < t > n : e` and `nt_array_ptr(n, t, e)` to
`_Nt_array_ptr < t > n : e`: the tokens of `n`, `t` and `e` are copied once
each, unchanged, with `e` after the colon. -/
theorem checked_pointer_expansion (n : String) (t e : List String)
    (hn : isIdentifier n = true) (hnF : isDefined n checkedTable = false)
    (ht : isArg t = true) (htF : macroFree checkedTable t = true)
    (he : isArg e = true) (heF : macroFree checkedTable e = true)
    (fuel : Nat) (hf : t.length + e.length + 7 ≤ fuel) :
    preprocess checkedTable fuel (invoke "ptr" [[n], t]) =
        .ok (["_Ptr", "<"] ++ t ++ [">", n]) ∧
      preprocess checkedTable fuel (invoke "array_ptr" [[n], t, e]) =
        .ok (["_Array_ptr", "<"] ++ t ++ [">", n, ":"] ++ e) ∧
      preprocess checkedTable fuel (invoke "nt_array_ptr" [[n], t, e]) =
        .ok (["_Nt_array_ptr", "<"] ++ t ++ [">", n, ":"] ++ e) := by
  have h1 := preprocess_alone _ _ _ (t.length + 5)
    (fun f => ptr_checked_source f n t [] hn hnF ht htF) fuel (by omega)
  have h2 := preprocess_alone _ _ _ (t.length + e.length + 6)
    (fun f => bounded_checked_source f "array_ptr" n t e [] rfl hn hnF ht htF he heF) fuel hf
  have h3 := preprocess_alone _ _ _ (t.length + e.length + 6)
    (fun f => bounded_checked_source f "nt_array_ptr" n t e [] rfl hn hnF ht htF he heF) fuel hf
  refine ⟨by simpa using h1, ?_, ?_⟩
  · rw [h2]; simp [boundedKeyword]
  · rw [h3]; simp [boundedKeyword]

/-- C8, at `ptr(p, int)`, `array_ptr(p, int, count(8))` and
`nt_array_ptr(p, int, count(8))`. -/
theorem checked_pointer_expansion_witness :
    preprocess checkedTable 12 (invoke "ptr" [["p"], ["int"]]) =
        .ok (["_Ptr", "<"] ++ ["int"] ++ [">", "p"]) ∧
      preprocess checkedTable 12 (invoke "array_ptr" [["p"], ["int"], ["count", "(", "8", ")"]]) =
        .ok (["_Array_ptr", "<"] ++ ["int"] ++ [">", "p", ":"] ++ ["count", "(", "8", ")"]) ∧
      preprocess checkedTable 12 (invoke "nt_array_ptr" [["p"], ["int"], ["count", "(", "8", ")"]]) =
        .ok (["_Nt_array_ptr", "<"] ++ ["int"] ++ [">", "p", ":"] ++ ["count", "(", "8", ")"]) :=
  checked_pointer_expansion "p" ["int"] ["count", "(", "8", ")"]
    (by decide) (by decide) (by decide) (by decide) (by decide) (by decide) 12 (by decide)

/-- C9: in checked mode `checked`, `unchecked`, `nt_checked` and
`dynamic_check` are preprocessed to `_Checked`, `_Unchecked`, `_Nt_checked`
and `_Dynamic_Check`; for every condition `c` without macro names
`dynamic_check(c)` is preprocessed to `_Dynamic_Check ( c )`, with `c` copied
once; and with the downstream meaning of `_Dynamic_Check` the statement
`dynamic_check(0);` aborts while `dynamic_check(1);` completes. -/
theorem checked_keyword_expansion (c : List String) (hc : macroFree checkedTable c = true)
    (fuel : Nat) (hf : c.length + 7 ≤ fuel) :
    preprocess checkedTable fuel ["checked"] = .ok ["_Checked"] ∧
      preprocess checkedTable fuel ["unchecked"] = .ok ["_Unchecked"] ∧
      preprocess checkedTable fuel ["nt_checked"] = .ok ["_Nt_checked"] ∧
      preprocess checkedTable fuel ["dynamic_check"] = .ok ["_Dynamic_Check"] ∧
      preprocess checkedTable fuel (invoke "dynamic_check" [c]) =
        .ok (["_Dynamic_Check", "("] ++ c ++ [")"]) ∧
      runPreprocessed checkedTable fuel (invoke "dynamic_check" [["0"]] ++ [";"]) = some .aborts ∧
      runPreprocessed checkedTable fuel (invoke "dynamic_check" [["1"]] ++ [";"]) =
        some .completes := by
  have hfuel : fuel = (fuel - 2) + 2 := by omega
  have kw : ∀ name k : String, find? name checkedTable = some ⟨none, [k]⟩ →
      find? k checkedTable = none → preprocess checkedTable fuel [name] = .ok [k] := by
    intro name k h1 h2
    rw [hfuel, keyword_checked name k h1 h2,
      preprocess_macroFree checkedTable [] rfl (fuel - 2) (by simp; omega)]
    rfl
  have hrest : macroFree checkedTable ("(" :: (c ++ [")"])) = true := by
    simp only [macroFree, List.all_cons, List.all_append, Bool.and_eq_true] at hc ⊢
    exact ⟨rfl, hc, rfl, rfl⟩
  refine ⟨kw _ _ rfl rfl, kw _ _ rfl rfl, kw _ _ rfl rfl, kw _ _ rfl rfl, ?_, ?_, ?_⟩
  · have : invoke "dynamic_check" [c] = "dynamic_check" :: ("(" :: (c ++ [")"])) := rfl
    rw [this, hfuel, keyword_checked "dynamic_check" "_Dynamic_Check" rfl rfl,
      preprocess_macroFree checkedTable _ hrest (fuel - 2) (by simp; omega)]
    simp [Except.map]
  · have h7 : preprocess checkedTable 7 (invoke "dynamic_check" [["0"]] ++ [";"]) =
        .ok ["_Dynamic_Check", "(", "0", ")", ";"] := rfl
    unfold runPreprocessed
    rw [preprocess_mono checkedTable 7 fuel _ _ h7 (by omega)]
    rfl
  · have h7 : preprocess checkedTable 7 (invoke "dynamic_check" [["1"]] ++ [";"]) =
        .ok ["_Dynamic_Check", "(", "1", ")", ";"] := rfl
    unfold runPreprocessed
    rw [preprocess_mono checkedTable 7 fuel _ _ h7 (by omega)]
    rfl

/-- C9, at the condition `len > 0`. -/
theorem checked_keyword_expansion_witness :
    preprocess checkedTable 10 ["checked"] = .ok ["_Checked"] ∧
      preprocess checkedTable 10 ["unchecked"] = .ok ["_Unchecked"] ∧
      preprocess checkedTable 10 ["nt_checked"] = .ok ["_Nt_checked"] ∧
      preprocess checkedTable 10 ["dynamic_check"] = .ok ["_Dynamic_Check"] ∧
      preprocess checkedTable 10 (invoke "dynamic_check" [["len", ">", "0"]]) =
        .ok (["_Dynamic_Check", "("] ++ ["len", ">", "0"] ++ [")"]) ∧
      runPreprocessed checkedTable 10 (invoke "dynamic_check" [["0"]] ++ [";"]) = some .aborts ∧
      runPreprocessed checkedTable 10 (invoke "dynamic_check" [["1"]] ++ [";"]) =
        some .completes :=
  checked_keyword_expansion ["len", ">", "0"] (by decide) 10 (by decide)

end CheckedC
